import Mathlib

/-!
Shallow embedding of the `kcollection` rolling-window implementation
(`kcollection/rollingwindow.go`, `kcollection/options.go`).

Modelling conventions:
* `time.Duration` values (monotonic instants and intervals) are `Int`
  (int64 nanoseconds; the claims are about the arithmetic, not the width).
* Go's integer division and remainder truncate toward zero, so where the
  source divides (`/`) or takes a remainder (`%`) we use `Int.tdiv` and
  `Int.tmod`.
* The monotonic time source `ktime.Now()` is passed in as an explicit
  `now : Int` argument; `ktime.Since(d) = Now() - d` becomes `now - d`.
* The generic bucket interface `BucketInterface[T]` (methods `Add`, `Reset`)
  becomes an explicit dictionary `BucketOps T B` of pure functions, and the
  mutable bucket slice becomes a `List B` updated functionally.
* The `sync.RWMutex` disappears: each exported operation runs atomically
  under the lock in the source, so the embedding gives the state transition
  of one complete locked call.
-/

namespace KCollection

/-- Configuration of a rolling window (`RollingWindowOptions` in the source):
number of buckets, per-bucket time interval, and whether reads skip the
in-progress bucket. -/
structure RollingWindowOptions where
  size : Int
  interval : Int
  ignoreCurrent : Bool
deriving DecidableEq

/-- The bucket capability (`BucketInterface[T]` in the source): merge a value
into the accumulator, and reset the accumulator to its identity. -/
structure BucketOps (T B : Type) where
  add : B → T → B
  reset : B → B

/-- State of a `RollingWindow`: the bucket array of the inner `window`, the
last-rotation timestamp `lastTime`, the current write position `offset`, and
the (immutable after construction) options. -/
structure RollingWindow (B : Type) where
  buckets : List B
  lastTime : Int
  offset : Int
  opts : RollingWindowOptions
deriving DecidableEq

/-- Functional update of the element at index `n` of a list (out-of-range
indices leave the list unchanged; the source never produces one). -/
def listModify {B : Type} (f : B → B) : Nat → List B → List B
  | _, [] => []
  | 0, b :: bs => f b :: bs
  | n + 1, b :: bs => b :: listModify f n bs

/-- Source `window.add`: `w.buckets[offset%w.size].Add(v)`. -/
def windowAdd {T B : Type} (ops : BucketOps T B) (size : Int) (bs : List B)
    (offset : Int) (v : T) : List B :=
  listModify (fun b => ops.add b v) ((offset.tmod size).toNat) bs

/-- Source `window.resetBucket`: `w.buckets[offset%w.size].Reset()`. -/
def windowResetBucket {T B : Type} (ops : BucketOps T B) (size : Int)
    (bs : List B) (offset : Int) : List B :=
  listModify ops.reset ((offset.tmod size).toNat) bs

/-- Source `window.reduce`: visit `count` buckets starting at slot `start`,
advancing circularly; the result is the list of buckets passed to the
visitor `fn`, in visiting order. -/
def windowReduce {B : Type} [Inhabited B] (size : Int) (bs : List B) :
    Int → Nat → List B
  | _, 0 => []
  | start, n + 1 =>
      bs.getD ((start.tmod size).toNat) default :: windowReduce size bs (start + 1) n

/-- Source `RollingWindow.span`:
`offset := int(ktime.Since(rw.lastTime) / rw.opts.interval)` followed by the
range check `0 <= offset && offset < rw.opts.size`, else `rw.opts.size`. -/
def RollingWindow.span {B : Type} (rw : RollingWindow B) (now : Int) : Int :=
  let offset := (now - rw.lastTime).tdiv rw.opts.interval
  if 0 ≤ offset ∧ offset < rw.opts.size then offset else rw.opts.size

/-- The loop body of `RollingWindow.updateOffset`:
`for i := 0; i < span; i++ { rw.win.resetBucket((offset + i + 1) % rw.opts.size) }`.
Iteration `i = n` is applied outermost, matching the ascending loop. -/
def resetLoop {T B : Type} (ops : BucketOps T B) (size offset : Int) :
    Nat → List B → List B
  | 0, bs => bs
  | n + 1, bs =>
      windowResetBucket ops size (resetLoop ops size offset n bs) (offset + n + 1)

/-- Source `RollingWindow.updateOffset`: compute the span; if positive, reset
the `span` buckets following `offset`, advance `offset` by `span` modulo
`size`, and realign `lastTime` to `now - (now-rw.lastTime)%rw.opts.interval`. -/
def RollingWindow.updateOffset {T B : Type} (ops : BucketOps T B)
    (rw : RollingWindow B) (now : Int) : RollingWindow B :=
  let sp := rw.span now
  if sp ≤ 0 then rw
  else
    { rw with
      buckets := resetLoop ops rw.opts.size rw.offset sp.toNat rw.buckets
      offset := (rw.offset + sp).tmod rw.opts.size
      lastTime := now - (now - rw.lastTime).tmod rw.opts.interval }

/-- Source `RollingWindow.Add`: rotate via `updateOffset`, then
`rw.win.add(rw.offset, v)`. -/
def RollingWindow.Add {T B : Type} (ops : BucketOps T B) (rw : RollingWindow B)
    (now : Int) (v : T) : RollingWindow B :=
  let rw2 := rw.updateOffset ops now
  { rw2 with buckets := windowAdd ops rw2.opts.size rw2.buckets rw2.offset v }

/-- Source `RollingWindow.Reduce`: compute `span` and `diff`
(`size - 1` when `span == 0` and `ignoreCurrent`, else `size - span`); when
`diff > 0` visit `diff` buckets from `(rw.offset + span + 1) % size`.
The result is the list of buckets passed to the visitor, in order. -/
def RollingWindow.Reduce {B : Type} [Inhabited B] (rw : RollingWindow B)
    (now : Int) : List B :=
  let sp := rw.span now
  let diff := if sp = 0 ∧ rw.opts.ignoreCurrent then rw.opts.size - 1
    else rw.opts.size - sp
  if 0 < diff then
    windowReduce rw.opts.size rw.buckets ((rw.offset + sp + 1).tmod rw.opts.size)
      diff.toNat
  else []

/-- State-passing form of `Reduce`. The source method holds only the read
lock (`RLock`) and assigns no field of `rw`, so the state component of the
embedding is the unchanged input state. -/
def RollingWindow.ReduceSt {B : Type} [Inhabited B] (rw : RollingWindow B)
    (now : Int) : RollingWindow B × List B :=
  (rw, rw.Reduce now)

/-- Source `RollingWindow.GetLastValidBucket`: same `span`/`diff` computation
as `Reduce`; when `diff <= 0` return the zero bucket (`var zero B`, modelled
by `default`) and `false`; otherwise the bucket at
`lastPos = ((rw.offset+span+1)%size + diff - 1) % size` and `true`. -/
def RollingWindow.GetLastValidBucket {B : Type} [Inhabited B]
    (rw : RollingWindow B) (now : Int) : B × Bool :=
  let sp := rw.span now
  let diff := if sp = 0 ∧ rw.opts.ignoreCurrent then rw.opts.size - 1
    else rw.opts.size - sp
  if diff ≤ 0 then (default, false)
  else
    let offset := (rw.offset + sp + 1).tmod rw.opts.size
    let lastPos := (offset + diff - 1).tmod rw.opts.size
    (rw.buckets.getD lastPos.toNat default, true)

/-- State-passing form of `GetLastValidBucket`; like `Reduce` it holds only
the read lock and assigns no field of `rw`. -/
def RollingWindow.GetLastValidBucketSt {B : Type} [Inhabited B]
    (rw : RollingWindow B) (now : Int) : RollingWindow B × (B × Bool) :=
  (rw, rw.GetLastValidBucket now)

/-- Source `NewRollingWindow` plus `newWindow`: after folding the options,
`panic("size must be greater than 0")` when `options.size < 1` (modelled as
`none`), otherwise a window of `size` fresh buckets from the factory, with
`lastTime := ktime.Now()` and `offset := 0`. -/
def NewRollingWindow {B : Type} (newBucket : B) (opts : RollingWindowOptions)
    (now : Int) : Option (RollingWindow B) :=
  if opts.size < 1 then none
  else some
    { buckets := List.replicate opts.size.toNat newBucket
      lastTime := now
      offset := 0
      opts := opts }

/-- The default accumulator (`Bucket[T]` in the source): a running sum and a
count, with the numeric type instantiated at `Int`. -/
structure Bucket where
  Sum : Int
  Count : Int
deriving DecidableEq

instance : Inhabited Bucket := ⟨⟨0, 0⟩⟩

/-- Source `Bucket.Add`: `b.Sum += v; b.Count++`. -/
def Bucket.add (b : Bucket) (v : Int) : Bucket :=
  { Sum := b.Sum + v, Count := b.Count + 1 }

/-- Source `Bucket.Reset`: `b.Sum = 0; b.Count = 0`. -/
def Bucket.reset (_ : Bucket) : Bucket :=
  { Sum := 0, Count := 0 }

/-- The `BucketOps` dictionary for the default `Bucket`. -/
def bucketOps : BucketOps Int Bucket :=
  { add := Bucket.add, reset := fun b => b.reset }

/-- A convenient predicate for states a constructed window can be in:
the bucket list has exactly `size` elements and the write offset is in
range. -/
def ValidState {B : Type} (rw : RollingWindow B) : Prop :=
  rw.buckets.length = rw.opts.size.toNat ∧ 0 ≤ rw.offset ∧ rw.offset < rw.opts.size

/-! ### Circular-index toolkit -/

/-- The ring slot addressed by the (possibly un-normalised) position `x`:
the mathematical remainder of `x` modulo `size`, as a list index. -/
def slot (size x : Int) : Nat := (x % size).toNat

theorem slot_coe {size : Int} (x : Int) (hsize : 0 < size) :
    (slot size x : Int) = x % size :=
  Int.toNat_of_nonneg (Int.emod_nonneg x (by omega))

theorem slot_lt {size : Int} (hsize : 0 < size) (x : Int) :
    slot size x < size.toNat := by
  have h1 : x % size < size := Int.emod_lt_of_pos x hsize
  have h2 : 0 ≤ x % size := Int.emod_nonneg x (by omega)
  unfold slot
  omega

/-- Go's `%` (`Int.tmod`) agrees with `slot` on the nonnegative positions the
source actually produces. -/
theorem tmod_toNat_slot {size x : Int} (hx : 0 ≤ x) (hsize : 0 < size) :
    (x.tmod size).toNat = slot size x := by
  rw [Int.tmod_eq_emod hx (le_of_lt hsize)]
  rfl

theorem slot_of_tmod {size x : Int} (hx : 0 ≤ x) (hsize : 0 < size) :
    slot size (x.tmod size) = slot size x := by
  rw [Int.tmod_eq_emod hx (le_of_lt hsize)]
  unfold slot
  rw [Int.emod_emod]

theorem slot_eq_of_lt {size x : Int} (hx : 0 ≤ x) (hsize : x < size) :
    slot size x = x.toNat := by
  unfold slot
  rw [Int.emod_eq_of_lt hx hsize]

theorem slot_add_size {size : Int} (x : Int) :
    slot size (x + size) = slot size x := by
  unfold slot
  rw [Int.add_emod, Int.emod_self, add_zero, Int.emod_emod]

/-- Two in-window displacements from a common base land in the same slot only
if they are equal. -/
theorem slot_inj {size : Int} (hsize : 0 < size) {c i j : Int}
    (hi0 : 0 ≤ i) (hi : i < size) (hj0 : 0 ≤ j) (hj : j < size)
    (h : slot size (c + i) = slot size (c + j)) : i = j := by
  have h' : (c + i) % size = (c + j) % size := by
    have hc := congrArg (fun n : Nat => (n : Int)) h
    simpa [slot_coe _ hsize] using hc
  have hs : (c + i - c) % size = (c + j - c) % size := by
    rw [Int.sub_emod (c + i) c size, Int.sub_emod (c + j) c size, h']
  simp only [add_sub_cancel_left] at hs
  rwa [Int.emod_eq_of_lt hi0 hi, Int.emod_eq_of_lt hj0 hj] at hs

theorem slot_shift_ne {size : Int} (hsize : 0 < size) {c : Int} {i j : Nat}
    (hi : (i : Int) < size) (hj : (j : Int) < size) (hne : i ≠ j) :
    slot size (c + i + 1) ≠ slot size (c + j + 1) := by
  intro h
  apply hne
  have h' : slot size ((c + 1) + (i : Int)) = slot size ((c + 1) + (j : Int)) := by
    have e1 : c + (i : Int) + 1 = (c + 1) + (i : Int) := by ring
    have e2 : c + (j : Int) + 1 = (c + 1) + (j : Int) := by ring
    rwa [e1, e2] at h
  have := slot_inj hsize (by positivity) hi (by positivity) hj h'
  exact_mod_cast this

/-! ### `listModify` and `resetLoop` characterisation -/

theorem listModify_length {B : Type} (f : B → B) (n : Nat) (bs : List B) :
    (listModify f n bs).length = bs.length := by
  induction bs generalizing n with
  | nil => cases n <;> rfl
  | cons b bs ih =>
    cases n with
    | zero => rfl
    | succ n => simp [listModify, ih]

theorem listModify_getElem? {B : Type} (f : B → B) (n : Nat) (bs : List B)
    (p : Nat) :
    (listModify f n bs)[p]? = if p = n then (bs[p]?).map f else bs[p]? := by
  induction bs generalizing n p with
  | nil => simp [listModify]
  | cons b bs ih =>
    cases n with
    | zero =>
      cases p with
      | zero => simp [listModify]
      | succ p => simp [listModify]
    | succ n =>
      cases p with
      | zero => simp [listModify]
      | succ p => simpa [listModify] using ih n p

theorem resetLoop_length {T B : Type} (ops : BucketOps T B) (size offset : Int)
    (n : Nat) (bs : List B) :
    (resetLoop ops size offset n bs).length = bs.length := by
  induction n with
  | zero => rfl
  | succ n ih => simp [resetLoop, windowResetBucket, listModify_length, ih]

/-- Slots outside the reset range are untouched by the reset loop. -/
theorem resetLoop_getElem?_of_notMem {T B : Type} (ops : BucketOps T B)
    {size offset : Int} (hsize : 0 < size) (hoff : 0 ≤ offset) {n : Nat}
    (bs : List B) {p : Nat}
    (hp : ∀ i : Nat, i < n → p ≠ slot size (offset + i + 1)) :
    (resetLoop ops size offset n bs)[p]? = bs[p]? := by
  induction n with
  | zero => rfl
  | succ n ih =>
    have hidx : ((offset + (n : Int) + 1).tmod size).toNat =
        slot size (offset + n + 1) := tmod_toNat_slot (by omega) hsize
    simp only [resetLoop, windowResetBucket, hidx, listModify_getElem?]
    rw [if_neg (hp n (Nat.lt_succ_self n))]
    exact ih (fun i hi => hp i (Nat.lt_succ_of_lt hi))

/-- Each slot in the reset range holds the reset of its previous content when
the loop runs at most `size` iterations (so that no slot is hit twice). -/
theorem resetLoop_getElem?_of_mem {T B : Type} (ops : BucketOps T B)
    {size offset : Int} (hsize : 0 < size) (hoff : 0 ≤ offset) {n : Nat}
    (hn : (n : Int) ≤ size) (bs : List B) {i : Nat} (hi : i < n) :
    (resetLoop ops size offset n bs)[slot size (offset + i + 1)]? =
      (bs[slot size (offset + i + 1)]?).map ops.reset := by
  induction n with
  | zero => omega
  | succ n ih =>
    have hidx : ((offset + (n : Int) + 1).tmod size).toNat =
        slot size (offset + n + 1) := tmod_toNat_slot (by omega) hsize
    simp only [resetLoop, windowResetBucket, hidx, listModify_getElem?]
    by_cases hin : i = n
    · subst hin
      rw [if_pos rfl]
      rw [resetLoop_getElem?_of_notMem ops hsize hoff bs
        (fun j hj => slot_shift_ne hsize (by omega) (by omega) (by omega))]
    · rw [if_neg (slot_shift_ne hsize (by omega) (by omega) hin)]
      exact ih (by omega) (by omega)

/-! ### Facts about `span` -/

theorem span_nonneg {B : Type} (rw : RollingWindow B) (now : Int)
    (hsize : 0 < rw.opts.size) : 0 ≤ rw.span now := by
  simp only [RollingWindow.span]
  split <;> omega

theorem span_le {B : Type} (rw : RollingWindow B) (now : Int) :
    rw.span now ≤ rw.opts.size := by
  simp only [RollingWindow.span]
  split <;> omega

/-- When the span did not clamp to `size`, it is the raw truncated quotient
(and that quotient is in range). -/
theorem span_eq_tdiv_of_lt_size {B : Type} {rw : RollingWindow B} {now : Int}
    (h : rw.span now < rw.opts.size) :
    rw.span now = (now - rw.lastTime).tdiv rw.opts.interval ∧
      0 ≤ (now - rw.lastTime).tdiv rw.opts.interval := by
  revert h
  simp only [RollingWindow.span]
  split <;> omega

/-- The span as the specification words it: the floor of `elapsed / interval`
(mathematical floor division, `Int.ediv`), replaced by `size` whenever it
would be negative or at least `size`. -/
def claimSpan (size interval elapsed : Int) : Int :=
  if elapsed / interval < 0 ∨ size ≤ elapsed / interval then size
  else elapsed / interval

/-- With a positive interval and nonnegative elapsed time (the monotonic time
source guarantees the latter), the code's truncated-division span agrees with
the specification's floor-division clamped span. -/
theorem span_eq_claimSpan {B : Type} (rw : RollingWindow B) (now : Int)
    (hint : 0 < rw.opts.interval) (hmono : rw.lastTime ≤ now) :
    rw.span now = claimSpan rw.opts.size rw.opts.interval (now - rw.lastTime) := by
  have ht : (now - rw.lastTime).tdiv rw.opts.interval =
      (now - rw.lastTime) / rw.opts.interval :=
    Int.tdiv_eq_ediv (by omega) (by omega)
  simp only [RollingWindow.span, claimSpan, ht]
  split <;> split <;> omega

/-! ### Characterisation of `updateOffset` and `Add` -/

theorem updateOffset_of_nonpos {T B : Type} (ops : BucketOps T B)
    (rw : RollingWindow B) (now : Int) (h : rw.span now ≤ 0) :
    rw.updateOffset ops now = rw := by
  simp only [RollingWindow.updateOffset]
  rw [if_pos h]

theorem updateOffset_of_pos {T B : Type} (ops : BucketOps T B)
    (rw : RollingWindow B) (now : Int) (h : 0 < rw.span now) :
    rw.updateOffset ops now =
      { buckets := resetLoop ops rw.opts.size rw.offset (rw.span now).toNat rw.buckets
        offset := (rw.offset + rw.span now).tmod rw.opts.size
        lastTime := now - (now - rw.lastTime).tmod rw.opts.interval
        opts := rw.opts } := by
  simp only [RollingWindow.updateOffset]
  rw [if_neg (by omega)]

theorem windowAdd_length {T B : Type} (ops : BucketOps T B) (size : Int)
    (bs : List B) (offset : Int) (v : T) :
    (windowAdd ops size bs offset v).length = bs.length :=
  listModify_length _ _ _

theorem windowAdd_getElem? {T B : Type} (ops : BucketOps T B) {size : Int}
    (hsize : 0 < size) (bs : List B) {offset : Int} (hoff : 0 ≤ offset) (v : T)
    (p : Nat) :
    (windowAdd ops size bs offset v)[p]? =
      if p = slot size offset then (bs[p]?).map (fun b => ops.add b v)
      else bs[p]? := by
  simp only [windowAdd, listModify_getElem?, tmod_toNat_slot hoff hsize]

theorem Add_opts {T B : Type} (ops : BucketOps T B) (rw : RollingWindow B)
    (now : Int) (v : T) : (rw.Add ops now v).opts = rw.opts := by
  by_cases h : rw.span now ≤ 0
  · simp [RollingWindow.Add, updateOffset_of_nonpos ops rw now h]
  · simp [RollingWindow.Add, updateOffset_of_pos ops rw now (by omega)]

theorem Add_length {T B : Type} (ops : BucketOps T B) (rw : RollingWindow B)
    (now : Int) (v : T) :
    (rw.Add ops now v).buckets.length = rw.buckets.length := by
  by_cases h : rw.span now ≤ 0
  · simp [RollingWindow.Add, updateOffset_of_nonpos ops rw now h,
      windowAdd_length]
  · simp [RollingWindow.Add, updateOffset_of_pos ops rw now (by omega),
      windowAdd_length, resetLoop_length]

theorem Add_of_span_nonpos {T B : Type} (ops : BucketOps T B)
    (rw : RollingWindow B) (now : Int) (v : T) (h : rw.span now ≤ 0) :
    rw.Add ops now v =
      { rw with buckets := windowAdd ops rw.opts.size rw.buckets rw.offset v } := by
  simp only [RollingWindow.Add, updateOffset_of_nonpos ops rw now h]

theorem Add_of_span_pos {T B : Type} (ops : BucketOps T B)
    (rw : RollingWindow B) (now : Int) (v : T) (h : 0 < rw.span now) :
    rw.Add ops now v =
      { buckets := windowAdd ops rw.opts.size
          (resetLoop ops rw.opts.size rw.offset (rw.span now).toNat rw.buckets)
          ((rw.offset + rw.span now).tmod rw.opts.size) v
        offset := (rw.offset + rw.span now).tmod rw.opts.size
        lastTime := now - (now - rw.lastTime).tmod rw.opts.interval
        opts := rw.opts } := by
  simp only [RollingWindow.Add, updateOffset_of_pos ops rw now h]

/-- After a rotating `Add`, the new current slot holds the old bucket reset
and then written with `v`. -/
theorem Add_buckets_pos_current {T B : Type} (ops : BucketOps T B)
    {rw : RollingWindow B} {now : Int} (v : T)
    (hsize : 0 < rw.opts.size) (hoff : 0 ≤ rw.offset)
    (h : 0 < rw.span now) :
    (rw.Add ops now v).buckets[slot rw.opts.size (rw.offset + rw.span now)]? =
      (rw.buckets[slot rw.opts.size (rw.offset + rw.span now)]?).map
        (fun b => ops.add (ops.reset b) v) := by
  have hsple := span_le rw now
  have hso : slot rw.opts.size ((rw.offset + rw.span now).tmod rw.opts.size) =
      slot rw.opts.size (rw.offset + rw.span now) := slot_of_tmod (by omega) hsize
  have hw : rw.offset + ((((rw.span now).toNat - 1 : Nat)) : Int) + 1 =
      rw.offset + rw.span now := by omega
  rw [Add_of_span_pos ops rw now v h]
  dsimp only
  rw [windowAdd_getElem? ops hsize _ (Int.tmod_nonneg _ (by omega)) v, hso,
    if_pos rfl]
  rw [← hw,
    resetLoop_getElem?_of_mem ops hsize hoff (by omega) rw.buckets (by omega),
    Option.map_map]
  rfl

/-- After a rotating `Add`, a slot in the reset range other than the new
current slot holds the reset of its previous content. -/
theorem Add_buckets_pos_reset {T B : Type} (ops : BucketOps T B)
    {rw : RollingWindow B} {now : Int} (v : T)
    (hsize : 0 < rw.opts.size) (hoff : 0 ≤ rw.offset)
    (h : 0 < rw.span now) {i : Nat} (hi : i < (rw.span now).toNat)
    (hne : slot rw.opts.size (rw.offset + i + 1) ≠
      slot rw.opts.size (rw.offset + rw.span now)) :
    (rw.Add ops now v).buckets[slot rw.opts.size (rw.offset + i + 1)]? =
      (rw.buckets[slot rw.opts.size (rw.offset + i + 1)]?).map ops.reset := by
  have hsple := span_le rw now
  have hso : slot rw.opts.size ((rw.offset + rw.span now).tmod rw.opts.size) =
      slot rw.opts.size (rw.offset + rw.span now) := slot_of_tmod (by omega) hsize
  rw [Add_of_span_pos ops rw now v h]
  dsimp only
  rw [windowAdd_getElem? ops hsize _ (Int.tmod_nonneg _ (by omega)) v, hso,
    if_neg hne]
  exact resetLoop_getElem?_of_mem ops hsize hoff (by omega) rw.buckets hi

/-- After a rotating `Add`, a slot outside the reset range is untouched. -/
theorem Add_buckets_pos_untouched {T B : Type} (ops : BucketOps T B)
    {rw : RollingWindow B} {now : Int} (v : T)
    (hsize : 0 < rw.opts.size) (hoff : 0 ≤ rw.offset)
    (h : 0 < rw.span now) {p : Nat}
    (hp : ∀ i : Nat, i < (rw.span now).toNat →
      p ≠ slot rw.opts.size (rw.offset + i + 1)) :
    (rw.Add ops now v).buckets[p]? = rw.buckets[p]? := by
  have hsple := span_le rw now
  have hso : slot rw.opts.size ((rw.offset + rw.span now).tmod rw.opts.size) =
      slot rw.opts.size (rw.offset + rw.span now) := slot_of_tmod (by omega) hsize
  have hw : rw.offset + ((((rw.span now).toNat - 1 : Nat)) : Int) + 1 =
      rw.offset + rw.span now := by omega
  have hpw : p ≠ slot rw.opts.size (rw.offset + rw.span now) := by
    rw [← hw]
    exact hp _ (by omega)
  rw [Add_of_span_pos ops rw now v h]
  dsimp only
  rw [windowAdd_getElem? ops hsize _ (Int.tmod_nonneg _ (by omega)) v, hso,
    if_neg hpw]
  exact resetLoop_getElem?_of_notMem ops hsize hoff rw.buckets hp

/-! ### Claim C1 -/

/-- C1: For every call to `Add`, with `elapsed = now - lastTime` and
`span = floor(elapsed / interval)` clamped to `size` whenever negative or at
least `size`: the code computes exactly that clamped span; if `span == 0`
the value is added into the bucket at the unchanged offset (and `lastTime`
is unchanged, no bucket is reset); if `span > 0` then exactly the `span`
slots at positions `(offset+1) % size .. (offset+span) % size` are reset to
the identity, each exactly once (the slot `(offset+span) % size` receiving
the value after its reset), `offset` becomes `(offset+span) % size`, and no
other bucket is reset or modified. -/
theorem C1_add_resets_exactly_span_slots {T B : Type} (ops : BucketOps T B)
    (rw : RollingWindow B) (now : Int) (v : T)
    (hsize : 0 < rw.opts.size) (hint : 0 < rw.opts.interval)
    (hoff : 0 ≤ rw.offset) (hmono : rw.lastTime ≤ now) :
    rw.span now = claimSpan rw.opts.size rw.opts.interval (now - rw.lastTime) ∧
    (rw.span now = 0 →
      (rw.Add ops now v).offset = rw.offset ∧
      (rw.Add ops now v).lastTime = rw.lastTime ∧
      ∀ p : Nat, (rw.Add ops now v).buckets[p]? =
        (if p = slot rw.opts.size rw.offset
         then (rw.buckets[p]?).map (fun b => ops.add b v)
         else rw.buckets[p]?)) ∧
    (0 < rw.span now →
      (rw.Add ops now v).offset = (rw.offset + rw.span now).tmod rw.opts.size ∧
      ((rw.Add ops now v).buckets[slot rw.opts.size (rw.offset + rw.span now)]? =
        (rw.buckets[slot rw.opts.size (rw.offset + rw.span now)]?).map
          (fun b => ops.add (ops.reset b) v)) ∧
      (∀ k : Int, 1 ≤ k → k ≤ rw.span now →
        slot rw.opts.size (rw.offset + k) ≠
          slot rw.opts.size (rw.offset + rw.span now) →
        (rw.Add ops now v).buckets[slot rw.opts.size (rw.offset + k)]? =
          (rw.buckets[slot rw.opts.size (rw.offset + k)]?).map ops.reset) ∧
      (∀ p : Nat,
        (∀ k : Int, 1 ≤ k → k ≤ rw.span now →
          p ≠ slot rw.opts.size (rw.offset + k)) →
        (rw.Add ops now v).buckets[p]? = rw.buckets[p]?)) := by
  refine ⟨span_eq_claimSpan rw now hint hmono, fun h0 => ?_, fun hpos => ?_⟩
  · rw [Add_of_span_nonpos ops rw now v (by omega)]
    refine ⟨rfl, rfl, fun p => ?_⟩
    exact windowAdd_getElem? ops hsize rw.buckets hoff v p
  · refine ⟨?_, Add_buckets_pos_current ops v hsize hoff hpos, ?_, ?_⟩
    · rw [Add_of_span_pos ops rw now v hpos]
    · intro k hk1 hk2 hne
      have hc : rw.offset + (((k - 1).toNat : Nat) : Int) + 1 = rw.offset + k := by
        omega
      rw [← hc] at hne ⊢
      exact Add_buckets_pos_reset ops v hsize hoff hpos (by omega) hne
    · intro p hp
      refine Add_buckets_pos_untouched ops v hsize hoff hpos (fun i hi => ?_)
      have hc : rw.offset + ((i : Nat) : Int) + 1 = rw.offset + ((i : Int) + 1) := by
        omega
      rw [hc]
      exact hp ((i : Int) + 1) (by omega) (by omega)

/-- A concrete window used by several witnesses: three buckets holding data,
`interval = 10`, `offset = 1`, `lastTime = 0`. -/
def rwC1 : RollingWindow Bucket :=
  { buckets := [⟨1, 1⟩, ⟨2, 1⟩, ⟨3, 1⟩], lastTime := 0, offset := 1,
    opts := { size := 3, interval := 10, ignoreCurrent := false } }

/-- Witness for C1 at a concrete input: `now = 25` gives span `2`; the
hypotheses hold and the theorem yields the claimed span value and the
claimed new offset. -/
theorem C1_witness :
    ((0 : Int) < rwC1.opts.size ∧ (0 : Int) < rwC1.opts.interval ∧
      (0 : Int) ≤ rwC1.offset ∧ rwC1.lastTime ≤ (25 : Int)) ∧
    rwC1.span 25 = claimSpan rwC1.opts.size rwC1.opts.interval (25 - rwC1.lastTime) ∧
    (rwC1.Add bucketOps 25 7).offset = (rwC1.offset + rwC1.span 25).tmod rwC1.opts.size :=
  ⟨⟨by decide, by decide, by decide, by decide⟩,
    (C1_add_resets_exactly_span_slots bucketOps rwC1 25 7 (by decide) (by decide)
      (by decide) (by decide)).1,
    ((C1_add_resets_exactly_span_slots bucketOps rwC1 25 7 (by decide) (by decide)
      (by decide) (by decide)).2.2 (by decide)).1⟩

/-! ### Claim C2 -/

theorem slot_tmod_add {size x : Int} (y : Int) (hx : 0 ≤ x) (hsize : 0 < size) :
    slot size (x.tmod size + y) = slot size (x + y) := by
  rw [Int.tmod_eq_emod hx (le_of_lt hsize)]
  unfold slot
  rw [Int.emod_add_emod]

/-- The visitor loop of `window.reduce` visits exactly the buckets at slots
`start, start+1, ..., start+n-1` (circularly), in that order. -/
theorem windowReduce_eq_map {B : Type} [Inhabited B] {size : Int}
    (hsize : 0 < size) (bs : List B) (n : Nat) (start : Int) (hstart : 0 ≤ start) :
    windowReduce size bs start n =
      (List.range n).map (fun i : Nat => bs.getD (slot size (start + (i : Int))) default) := by
  induction n generalizing start with
  | zero => rfl
  | succ n ih =>
    rw [windowReduce, tmod_toNat_slot hstart hsize, ih (start + 1) (by omega),
      List.range_succ_eq_map, List.map_cons, List.map_map]
    have e0 : start + ((0 : Nat) : Int) = start := by omega
    rw [e0]
    refine congrArg₂ List.cons rfl ?_
    congr 1
    funext i
    simp only [Function.comp_apply]
    have e1 : start + ((i + 1 : Nat) : Int) = start + 1 + (i : Int) := by omega
    rw [e1]

/-- The `Reduce` visit list in closed form: empty when `diff ≤ 0`, otherwise
the buckets at slots `(offset+span+1) % size .. (offset+span+diff) % size`,
in that order.  Shared backbone of the claims about `Reduce` and
`GetLastValidBucket`. -/
theorem Reduce_char {B : Type} [Inhabited B] (rw : RollingWindow B)
    (now : Int) (hsize : 0 < rw.opts.size) (hoff : 0 ≤ rw.offset) :
    ((if rw.span now = 0 ∧ rw.opts.ignoreCurrent then rw.opts.size - 1
        else rw.opts.size - rw.span now) ≤ 0 → rw.Reduce now = []) ∧
    (0 < (if rw.span now = 0 ∧ rw.opts.ignoreCurrent then rw.opts.size - 1
        else rw.opts.size - rw.span now) →
      rw.Reduce now =
        (List.range (if rw.span now = 0 ∧ rw.opts.ignoreCurrent then
            rw.opts.size - 1 else rw.opts.size - rw.span now).toNat).map
          (fun i : Nat =>
            rw.buckets.getD
              (slot rw.opts.size (rw.offset + rw.span now + 1 + (i : Int)))
              default)) := by
  have hsp : 0 ≤ rw.span now := span_nonneg rw now hsize
  constructor
  · intro hd
    simp only [RollingWindow.Reduce]
    rw [if_neg (by omega)]
  · intro hd
    simp only [RollingWindow.Reduce]
    rw [if_pos hd,
      windowReduce_eq_map hsize rw.buckets _ _ (Int.tmod_nonneg _ (by omega))]
    congr 1
    funext i
    congr 1
    rw [slot_tmod_add (i : Int) (by omega) hsize]

/-- C2: for every window state, `Reduce` visits
`diff = size - span` buckets (`size - 1` when `span == 0` and
`ignoreCurrent`), none when `diff ≤ 0`, and otherwise exactly the buckets at
slots `(offset+span+1) % size .. (offset+span+diff) % size`, oldest to
newest, in that order. -/
theorem C2_reduce_visits {B : Type} [Inhabited B] (rw : RollingWindow B)
    (now : Int) (hsize : 0 < rw.opts.size) (hoff : 0 ≤ rw.offset) :
    ((if rw.span now = 0 ∧ rw.opts.ignoreCurrent then rw.opts.size - 1
        else rw.opts.size - rw.span now) ≤ 0 → rw.Reduce now = []) ∧
    (0 < (if rw.span now = 0 ∧ rw.opts.ignoreCurrent then rw.opts.size - 1
        else rw.opts.size - rw.span now) →
      (rw.Reduce now).length =
        (if rw.span now = 0 ∧ rw.opts.ignoreCurrent then rw.opts.size - 1
          else rw.opts.size - rw.span now).toNat ∧
      rw.Reduce now =
        (List.range (if rw.span now = 0 ∧ rw.opts.ignoreCurrent then
            rw.opts.size - 1 else rw.opts.size - rw.span now).toNat).map
          (fun i : Nat =>
            rw.buckets.getD
              (slot rw.opts.size (rw.offset + rw.span now + 1 + (i : Int)))
              default)) := by
  refine ⟨(Reduce_char rw now hsize hoff).1, fun hd => ?_⟩
  have hmap := (Reduce_char rw now hsize hoff).2 hd
  refine ⟨?_, hmap⟩
  rw [hmap]
  simp

/-- Witness for C2: on the concrete window `rwC1` at `now = 25` (span 2,
diff 1) the visited list is exactly the single bucket at slot
`(1 + 2 + 1) % 3 = 1`. -/
theorem C2_witness :
    ((0 : Int) < rwC1.opts.size ∧ (0 : Int) ≤ rwC1.offset) ∧
    rwC1.Reduce 25 =
      (List.range (if rwC1.span 25 = 0 ∧ rwC1.opts.ignoreCurrent then
          rwC1.opts.size - 1 else rwC1.opts.size - rwC1.span 25).toNat).map
        (fun i : Nat =>
          rwC1.buckets.getD
            (slot rwC1.opts.size (rwC1.offset + rwC1.span 25 + 1 + (i : Int)))
            default) :=
  ⟨⟨by decide, by decide⟩,
    ((C2_reduce_visits rwC1 25 (by decide) (by decide)).2 (by decide)).2⟩

/-! ### Claim C5 -/

/-- C5: `GetLastValidBucket` computes `diff` exactly as `Reduce`; when
`diff ≤ 0` it returns the zero bucket and `false`; when `diff > 0` it
returns, with `true`, precisely the bucket at slot
`(offset + span + diff) % size`, which is the last bucket `Reduce` visits. -/
theorem C5_getLastValidBucket {B : Type} [Inhabited B] (rw : RollingWindow B)
    (now : Int) (hsize : 0 < rw.opts.size) (hoff : 0 ≤ rw.offset) :
    ((if rw.span now = 0 ∧ rw.opts.ignoreCurrent then rw.opts.size - 1
        else rw.opts.size - rw.span now) ≤ 0 →
      rw.GetLastValidBucket now = (default, false)) ∧
    (0 < (if rw.span now = 0 ∧ rw.opts.ignoreCurrent then rw.opts.size - 1
        else rw.opts.size - rw.span now) →
      rw.GetLastValidBucket now =
        (rw.buckets.getD
          (slot rw.opts.size (rw.offset + rw.span now +
            (if rw.span now = 0 ∧ rw.opts.ignoreCurrent then rw.opts.size - 1
              else rw.opts.size - rw.span now))) default, true) ∧
      (rw.Reduce now).getLast? = some (rw.GetLastValidBucket now).1) := by
  have hsp : 0 ≤ rw.span now := span_nonneg rw now hsize
  set diff := if rw.span now = 0 ∧ rw.opts.ignoreCurrent then rw.opts.size - 1
    else rw.opts.size - rw.span now with hdiff
  constructor
  · intro hd
    simp only [RollingWindow.GetLastValidBucket, ← hdiff]
    rw [if_pos hd]
  · intro hd
    have hstart : 0 ≤ (rw.offset + rw.span now + 1).tmod rw.opts.size :=
      Int.tmod_nonneg _ (by omega)
    have hlast : (((rw.offset + rw.span now + 1).tmod rw.opts.size + diff - 1).tmod
        rw.opts.size).toNat = slot rw.opts.size (rw.offset + rw.span now + diff) := by
      rw [tmod_toNat_slot (by omega) hsize]
      have he : (rw.offset + rw.span now + 1).tmod rw.opts.size + diff - 1 =
          (rw.offset + rw.span now + 1).tmod rw.opts.size + (diff - 1) := by ring
      rw [he, slot_tmod_add (diff - 1) (by omega) hsize]
      congr 1
      ring
    have hglvb : rw.GetLastValidBucket now =
        (rw.buckets.getD
          (slot rw.opts.size (rw.offset + rw.span now + diff)) default, true) := by
      simp only [RollingWindow.GetLastValidBucket, ← hdiff]
      rw [if_neg (by omega)]
      rw [hlast]
    refine ⟨hglvb, ?_⟩
    have hmap := (Reduce_char rw now hsize hoff).2 (by omega)
    rw [hglvb, hmap, List.getLast?_eq_getElem?]
    have hlen : ((List.range diff.toNat).map
        (fun i : Nat =>
          rw.buckets.getD
            (slot rw.opts.size (rw.offset + rw.span now + 1 + (i : Int)))
            default)).length = diff.toNat := by simp
    rw [hlen, List.getElem?_map, List.getElem?_range (by omega), Option.map_some']
    dsimp only
    have e2 : rw.offset + rw.span now + 1 + ((diff.toNat - 1 : Nat) : Int) =
        rw.offset + rw.span now + diff := by omega
    rw [e2]

/-- Witness for C5: on `rwC1` at `now = 25` (span 2, diff 1) the result is
found and is exactly the bucket at slot `(1 + 2 + 1) % 3 = 1`. -/
theorem C5_witness :
    ((0 : Int) < rwC1.opts.size ∧ (0 : Int) ≤ rwC1.offset) ∧
    rwC1.GetLastValidBucket 25 =
      (rwC1.buckets.getD
        (slot rwC1.opts.size (rwC1.offset + rwC1.span 25 +
          (if rwC1.span 25 = 0 ∧ rwC1.opts.ignoreCurrent then rwC1.opts.size - 1
            else rwC1.opts.size - rwC1.span 25))) default, true) :=
  ⟨⟨by decide, by decide⟩,
    ((C5_getLastValidBucket rwC1 25 (by decide) (by decide)).2 (by decide)).1⟩

/-! ### Claim C3 -/

/-- C3: for every rotation performed with `span > 0` (under the monotonic
time source, `lastTime ≤ now`, and a positive interval — including the
clamped case of an arbitrarily large gap): the new `lastTime` is of the form
`lastTime + k * interval` for a natural `k`, satisfies
`0 ≤ now - lastTime_new < interval`, and dominates every value
`lastTime + k * interval` that does not exceed `now` — i.e. it is the
largest such multiple, regardless of the size of the gap. -/
theorem C3_lastTime_floor_alignment {T B : Type} (ops : BucketOps T B)
    (rw : RollingWindow B) (now : Int)
    (hint : 0 < rw.opts.interval) (hmono : rw.lastTime ≤ now)
    (hpos : 0 < rw.span now) :
    (∃ k : Nat, (rw.updateOffset ops now).lastTime =
      rw.lastTime + (k : Int) * rw.opts.interval) ∧
    0 ≤ now - (rw.updateOffset ops now).lastTime ∧
    now - (rw.updateOffset ops now).lastTime < rw.opts.interval ∧
    (∀ k : Nat, rw.lastTime + (k : Int) * rw.opts.interval ≤ now →
      rw.lastTime + (k : Int) * rw.opts.interval ≤
        (rw.updateOffset ops now).lastTime) := by
  have hE : 0 ≤ now - rw.lastTime := by omega
  have htm : (now - rw.lastTime).tmod rw.opts.interval =
      (now - rw.lastTime) % rw.opts.interval := Int.tmod_eq_emod hE (by omega)
  have hr0 : 0 ≤ (now - rw.lastTime) % rw.opts.interval :=
    Int.emod_nonneg _ (by omega)
  have hr1 : (now - rw.lastTime) % rw.opts.interval < rw.opts.interval :=
    Int.emod_lt_of_pos _ hint
  have hdm := Int.ediv_add_emod (now - rw.lastTime) rw.opts.interval
  have hq0 : 0 ≤ (now - rw.lastTime) / rw.opts.interval :=
    Int.ediv_nonneg hE (by omega)
  have hmain : (rw.updateOffset ops now).lastTime =
      rw.lastTime + ((now - rw.lastTime) / rw.opts.interval) * rw.opts.interval := by
    rw [updateOffset_of_pos ops rw now hpos]
    dsimp only
    rw [htm]
    linarith [hdm]
  refine ⟨⟨((now - rw.lastTime) / rw.opts.interval).toNat, ?_⟩, ?_, ?_, ?_⟩
  · rw [hmain, Int.toNat_of_nonneg hq0]
  · rw [hmain]
    linarith [hdm, hr0]
  · rw [hmain]
    linarith [hdm, hr1]
  · intro k hk
    rw [hmain]
    have hk' : (k : Int) ≤ (now - rw.lastTime) / rw.opts.interval :=
      (Int.le_ediv_iff_mul_le hint).mpr (by linarith)
    have hmul := mul_le_mul_of_nonneg_right hk' (le_of_lt hint)
    linarith

/-- Witness for C3: on `rwC1` at `now = 25` the rotation (span 2) leaves
`lastTime` within one interval below `now` and on the old grid. -/
theorem C3_witness :
    ((0 : Int) < rwC1.opts.interval ∧ rwC1.lastTime ≤ (25 : Int) ∧
      0 < rwC1.span 25) ∧
    (∃ k : Nat, (rwC1.updateOffset bucketOps 25).lastTime =
      rwC1.lastTime + (k : Int) * rwC1.opts.interval) ∧
    0 ≤ 25 - (rwC1.updateOffset bucketOps 25).lastTime ∧
    25 - (rwC1.updateOffset bucketOps 25).lastTime < rwC1.opts.interval :=
  ⟨⟨by decide, by decide, by decide⟩,
    (C3_lastTime_floor_alignment bucketOps rwC1 25 (by decide) (by decide)
      (by decide)).1,
    (C3_lastTime_floor_alignment bucketOps rwC1 25 (by decide) (by decide)
      (by decide)).2.1,
    (C3_lastTime_floor_alignment bucketOps rwC1 25 (by decide) (by decide)
      (by decide)).2.2.1⟩

/-! ### Claim C8 -/

/-- C8: the write offset satisfies `0 ≤ offset < size` in the initial state
of every successfully constructed window and after every `Add`, `Reduce` and
`GetLastValidBucket` call, for every possible reading of the time source
(`now` and the options are unconstrained). -/
theorem C8_offset_range_invariant {T B : Type} [Inhabited B]
    (ops : BucketOps T B) (newBucket : B) (opts : RollingWindowOptions)
    (rw0 rw : RollingWindow B) (t0 now : Int) (v : T)
    (hnew : NewRollingWindow newBucket opts t0 = some rw0)
    (hoff : 0 ≤ rw.offset) (hofflt : rw.offset < rw.opts.size) :
    (0 ≤ rw0.offset ∧ rw0.offset < rw0.opts.size) ∧
    (0 ≤ (rw.Add ops now v).offset ∧
      (rw.Add ops now v).offset < (rw.Add ops now v).opts.size) ∧
    (rw.ReduceSt now).1 = rw ∧
    (rw.GetLastValidBucketSt now).1 = rw := by
  have hsize : 0 < rw.opts.size := by omega
  have hc : ¬ opts.size < 1 := by
    intro hlt
    rw [NewRollingWindow, if_pos hlt] at hnew
    exact Option.noConfusion hnew
  rw [NewRollingWindow, if_neg hc] at hnew
  have hrw0 := Option.some.inj hnew
  refine ⟨?_, ?_, rfl, rfl⟩
  · rw [← hrw0]
    exact ⟨le_refl 0, by dsimp only; omega⟩
  · by_cases hsp : rw.span now ≤ 0
    · rw [Add_of_span_nonpos ops rw now v hsp]
      exact ⟨hoff, hofflt⟩
    · rw [Add_of_span_pos ops rw now v (by omega)]
      dsimp only
      exact ⟨Int.tmod_nonneg _ (by omega), Int.tmod_lt_of_pos _ hsize⟩

/-- Witness for C8 at a concrete construction and a concrete state. -/
theorem C8_witness :
    (NewRollingWindow (⟨0, 0⟩ : Bucket) rwC1.opts 0 =
        some ⟨[⟨0, 0⟩, ⟨0, 0⟩, ⟨0, 0⟩], 0, 0, rwC1.opts⟩ ∧
      (0 : Int) ≤ rwC1.offset ∧ rwC1.offset < rwC1.opts.size) ∧
    (0 ≤ (rwC1.Add bucketOps 25 7).offset ∧
      (rwC1.Add bucketOps 25 7).offset < (rwC1.Add bucketOps 25 7).opts.size) :=
  ⟨⟨by decide, by decide, by decide⟩,
    (C8_offset_range_invariant bucketOps ⟨0, 0⟩ rwC1.opts
      ⟨[⟨0, 0⟩, ⟨0, 0⟩, ⟨0, 0⟩], 0, 0, rwC1.opts⟩ rwC1 0 25 7 (by decide)
      (by decide) (by decide)).2.1⟩

/-! ### Claim C4 -/

theorem slot_ne_of_small_gap {size : Int} (hsize : 0 < size) {c d1 d2 : Int}
    (hlt : d2 < d1) (hgap : d1 - d2 < size) :
    slot size (c + d1) ≠ slot size (c + d2) := by
  intro h
  have h' : (c + d1) % size = (c + d2) % size := by
    have hc := congrArg (fun n : Nat => (n : Int)) h
    simpa [slot_coe _ hsize] using hc
  have hz : ((c + d1) - (c + d2)) % size = 0 :=
    Int.emod_eq_emod_iff_emod_sub_eq_zero.mp h'
  have he : ((c + d1) - (c + d2)) = d1 - d2 := by ring
  rw [he] at hz
  have hdvd : size ∣ (d1 - d2) := Int.dvd_of_emod_eq_zero hz
  have := Int.le_of_dvd (by omega) hdvd
  omega

/-- C4 counterexample: on the concrete window `rwC1` at `now = 25`, at least
one whole interval (in fact two) has elapsed since `lastTime`, yet `Reduce`
and `GetLastValidBucket` leave offset, lastTime and every bucket unchanged,
while the rotation `Add` performs at the same instant would advance the
offset, realign `lastTime` and reset buckets. The claim that these reads
"reset the stale buckets, advance offset ... and realign lastTime exactly
as Add would" is therefore false. -/
theorem C4_counterexample :
    (1 : Int) * rwC1.opts.interval ≤ 25 - rwC1.lastTime ∧
    (rwC1.ReduceSt 25).1 = rwC1 ∧
    (rwC1.GetLastValidBucketSt 25).1 = rwC1 ∧
    (rwC1.updateOffset bucketOps 25).offset ≠ rwC1.offset ∧
    (rwC1.updateOffset bucketOps 25).lastTime ≠ rwC1.lastTime ∧
    (rwC1.updateOffset bucketOps 25).buckets ≠ rwC1.buckets := by
  decide

/-- C4 amended: `Reduce` and `GetLastValidBucket` never mutate the window
(they hold the read lock and write no field); they compute the same `span`
as `Add` and start their traversal just past the stale slots, so every slot
they visit is a slot whose content `Add`'s rotation `updateOffset` at the
same instant would leave untouched; and `Add` factors exactly as rotation
(`updateOffset`) followed by the bucket write — rotation, reached only from
`Add`, is the only transition that changes `offset`, `lastTime`, or resets
buckets. -/
theorem C4_amended_reads_are_pure {T B : Type} [Inhabited B]
    (ops : BucketOps T B) (rw : RollingWindow B) (now : Int) (v : T)
    (hsize : 0 < rw.opts.size) (hoff : 0 ≤ rw.offset) :
    (rw.ReduceSt now).1 = rw ∧
    (rw.GetLastValidBucketSt now).1 = rw ∧
    rw.Add ops now v =
      { rw.updateOffset ops now with
        buckets := windowAdd ops (rw.updateOffset ops now).opts.size
          (rw.updateOffset ops now).buckets (rw.updateOffset ops now).offset v } ∧
    (∀ i : Nat,
      i < (if rw.span now = 0 ∧ rw.opts.ignoreCurrent then rw.opts.size - 1
        else rw.opts.size - rw.span now).toNat →
      (rw.updateOffset ops now).buckets[slot rw.opts.size
          (rw.offset + rw.span now + 1 + (i : Int))]? =
        rw.buckets[slot rw.opts.size (rw.offset + rw.span now + 1 + (i : Int))]?) := by
  refine ⟨rfl, rfl, rfl, ?_⟩
  intro i hi
  by_cases hsp : rw.span now ≤ 0
  · rw [updateOffset_of_nonpos ops rw now hsp]
  · have hpos : 0 < rw.span now := by omega
    rw [if_neg (fun hcon => absurd hcon.1 (by omega))] at hi
    rw [updateOffset_of_pos ops rw now hpos]
    dsimp only
    refine resetLoop_getElem?_of_notMem ops hsize hoff rw.buckets ?_
    intro j hj
    have hsple := span_le rw now
    have e1 : rw.offset + rw.span now + 1 + (i : Int) =
        rw.offset + (rw.span now + 1 + (i : Int)) := by ring
    have e2 : rw.offset + (j : Int) + 1 = rw.offset + ((j : Int) + 1) := by ring
    rw [e1, e2]
    exact slot_ne_of_small_gap hsize (by omega) (by omega)

/-- Witness for the amended C4 on `rwC1` at `now = 25`: the reads leave the
state unchanged and `Add` factors through `updateOffset`. -/
theorem C4_amended_witness :
    ((0 : Int) < rwC1.opts.size ∧ (0 : Int) ≤ rwC1.offset) ∧
    (rwC1.ReduceSt 25).1 = rwC1 ∧
    rwC1.Add bucketOps 25 7 =
      { rwC1.updateOffset bucketOps 25 with
        buckets := windowAdd bucketOps (rwC1.updateOffset bucketOps 25).opts.size
          (rwC1.updateOffset bucketOps 25).buckets
          (rwC1.updateOffset bucketOps 25).offset 7 } :=
  ⟨⟨by decide, by decide⟩,
    (C4_amended_reads_are_pure bucketOps rwC1 25 7 (by decide) (by decide)).1,
    (C4_amended_reads_are_pure bucketOps rwC1 25 7 (by decide) (by decide)).2.2.1⟩

/-! ### Panic-aware ("checked") layer

Go panics at runtime on integer division or remainder by zero and on an
out-of-range slice index.  The checked variants below repeat each operation
with those partial steps made explicit, `none` modelling the panic; the pure
definitions above are the `some`-projections on the non-panicking domain. -/

/-- `w.buckets[pos % w.size]` as a read: panics when `size == 0` or the
index is out of range. -/
def idxRead? {B : Type} (size : Int) (bs : List B) (pos : Int) : Option B :=
  if size = 0 then none
  else if 0 ≤ pos.tmod size then bs[(pos.tmod size).toNat]? else none

/-- `w.buckets[pos % w.size].f()` as an in-place update: panics when
`size == 0` or the index is out of range. -/
def idxModify? {B : Type} (size : Int) (f : B → B) (bs : List B) (pos : Int) :
    Option (List B) :=
  if size = 0 then none
  else if 0 ≤ pos.tmod size ∧ (pos.tmod size).toNat < bs.length then
    some (listModify f (pos.tmod size).toNat bs)
  else none

/-- `RollingWindow.span` with Go's division-by-zero panic explicit:
`ktime.Since(rw.lastTime) / rw.opts.interval` panics when `interval == 0`. -/
def RollingWindow.spanChecked {B : Type} (rw : RollingWindow B) (now : Int) :
    Option Int :=
  if rw.opts.interval = 0 then none else some (rw.span now)

/-- The reset loop of `updateOffset` with the panics of `resetBucket`'s
index expression explicit. -/
def resetLoopChecked {T B : Type} (ops : BucketOps T B) (size offset : Int) :
    Nat → List B → Option (List B)
  | 0, bs => some bs
  | n + 1, bs =>
      (resetLoopChecked ops size offset n bs).bind
        (fun bs2 => idxModify? size ops.reset bs2 (offset + n + 1))

/-- `updateOffset` with panics explicit.  (The trailing `%` expressions use
`interval`, guarded again, and `size`; `(rw.offset + sp) % size` cannot
divide by zero here because `sp > 0` forces `size > 0` through the span
clamp.) -/
def RollingWindow.updateOffsetChecked {T B : Type} (ops : BucketOps T B)
    (rw : RollingWindow B) (now : Int) : Option (RollingWindow B) :=
  (rw.spanChecked now).bind fun sp =>
  if sp ≤ 0 then some rw
  else
    (resetLoopChecked ops rw.opts.size rw.offset sp.toNat rw.buckets).bind fun bs =>
    if rw.opts.interval = 0 then none
    else some
      { rw with
        buckets := bs
        offset := (rw.offset + sp).tmod rw.opts.size
        lastTime := now - (now - rw.lastTime).tmod rw.opts.interval }

/-- `Add` with panics explicit. -/
def RollingWindow.AddChecked {T B : Type} (ops : BucketOps T B)
    (rw : RollingWindow B) (now : Int) (v : T) : Option (RollingWindow B) :=
  (rw.updateOffsetChecked ops now).bind fun rw2 =>
  (idxModify? rw2.opts.size (fun b => ops.add b v) rw2.buckets rw2.offset).bind
    fun bs => some { rw2 with buckets := bs }

/-- `window.reduce` with panics explicit. -/
def windowReduceChecked {B : Type} (size : Int) (bs : List B) :
    Int → Nat → Option (List B)
  | _, 0 => some []
  | start, n + 1 =>
      (idxRead? size bs start).bind fun b =>
      (windowReduceChecked size bs (start + 1) n).map fun l => b :: l

/-- `Reduce` with panics explicit. -/
def RollingWindow.ReduceChecked {B : Type} (rw : RollingWindow B) (now : Int) :
    Option (List B) :=
  (rw.spanChecked now).bind fun sp =>
  let diff := if sp = 0 ∧ rw.opts.ignoreCurrent then rw.opts.size - 1
    else rw.opts.size - sp
  if 0 < diff then
    if rw.opts.size = 0 then none
    else windowReduceChecked rw.opts.size rw.buckets
      ((rw.offset + sp + 1).tmod rw.opts.size) diff.toNat
  else some []

/-- `GetLastValidBucket` with panics explicit. -/
def RollingWindow.GetLastValidBucketChecked {B : Type} [Inhabited B]
    (rw : RollingWindow B) (now : Int) : Option (B × Bool) :=
  (rw.spanChecked now).bind fun sp =>
  let diff := if sp = 0 ∧ rw.opts.ignoreCurrent then rw.opts.size - 1
    else rw.opts.size - sp
  if diff ≤ 0 then some (default, false)
  else
    if rw.opts.size = 0 then none
    else
      (idxRead? rw.opts.size rw.buckets
        ((rw.offset + sp + 1).tmod rw.opts.size + diff - 1)).map fun b => (b, true)

/-! ### Agreement of the checked layer with the pure layer -/

theorem updateOffset_opts {T B : Type} (ops : BucketOps T B)
    (rw : RollingWindow B) (now : Int) :
    (rw.updateOffset ops now).opts = rw.opts := by
  by_cases h : rw.span now ≤ 0
  · rw [updateOffset_of_nonpos ops rw now h]
  · rw [updateOffset_of_pos ops rw now (by omega)]

theorem updateOffset_length {T B : Type} (ops : BucketOps T B)
    (rw : RollingWindow B) (now : Int) :
    (rw.updateOffset ops now).buckets.length = rw.buckets.length := by
  by_cases h : rw.span now ≤ 0
  · rw [updateOffset_of_nonpos ops rw now h]
  · rw [updateOffset_of_pos ops rw now (by omega)]
    exact resetLoop_length ops rw.opts.size rw.offset _ rw.buckets

theorem updateOffset_offset_range {T B : Type} (ops : BucketOps T B)
    (rw : RollingWindow B) (now : Int)
    (hoff : 0 ≤ rw.offset) (hofflt : rw.offset < rw.opts.size) :
    0 ≤ (rw.updateOffset ops now).offset ∧
      (rw.updateOffset ops now).offset < rw.opts.size := by
  have hsize : 0 < rw.opts.size := by omega
  by_cases h : rw.span now ≤ 0
  · rw [updateOffset_of_nonpos ops rw now h]
    exact ⟨hoff, hofflt⟩
  · have hsp := span_nonneg rw now hsize
    rw [updateOffset_of_pos ops rw now (by omega)]
    exact ⟨Int.tmod_nonneg _ (by omega), Int.tmod_lt_of_pos _ hsize⟩

theorem resetLoopChecked_eq {T B : Type} (ops : BucketOps T B)
    {size offset : Int} (hsize : 0 < size) (hoff : 0 ≤ offset) (n : Nat)
    (bs : List B) (hlen : bs.length = size.toNat) :
    resetLoopChecked ops size offset n bs =
      some (resetLoop ops size offset n bs) := by
  induction n with
  | zero => rfl
  | succ n ih =>
    rw [resetLoopChecked, ih, Option.some_bind, resetLoop]
    unfold idxModify?
    rw [if_neg (by omega)]
    have hnn : 0 ≤ (offset + (n : Int) + 1).tmod size :=
      Int.tmod_nonneg _ (by omega)
    have hlt : ((offset + (n : Int) + 1).tmod size).toNat <
        (resetLoop ops size offset n bs).length := by
      rw [resetLoop_length, hlen, tmod_toNat_slot (by omega) hsize]
      exact slot_lt hsize _
    rw [if_pos ⟨hnn, hlt⟩]
    rfl

theorem updateOffsetChecked_eq {T B : Type} (ops : BucketOps T B)
    (rw : RollingWindow B) (now : Int) (hint : rw.opts.interval ≠ 0)
    (hlen : rw.buckets.length = rw.opts.size.toNat)
    (hoff : 0 ≤ rw.offset) (hofflt : rw.offset < rw.opts.size) :
    rw.updateOffsetChecked ops now = some (rw.updateOffset ops now) := by
  have hsize : 0 < rw.opts.size := by omega
  simp only [RollingWindow.updateOffsetChecked, RollingWindow.spanChecked,
    if_neg hint, Option.some_bind]
  by_cases h : rw.span now ≤ 0
  · rw [if_pos h, updateOffset_of_nonpos ops rw now h]
  · rw [if_neg h, resetLoopChecked_eq ops hsize hoff _ rw.buckets hlen,
      Option.some_bind, updateOffset_of_pos ops rw now (by omega)]

theorem AddChecked_eq {T B : Type} (ops : BucketOps T B) (rw : RollingWindow B)
    (now : Int) (v : T) (hint : rw.opts.interval ≠ 0)
    (hlen : rw.buckets.length = rw.opts.size.toNat)
    (hoff : 0 ≤ rw.offset) (hofflt : rw.offset < rw.opts.size) :
    rw.AddChecked ops now v = some (rw.Add ops now v) := by
  have hsize : 0 < rw.opts.size := by omega
  rw [RollingWindow.AddChecked,
    updateOffsetChecked_eq ops rw now hint hlen hoff hofflt, Option.some_bind]
  have hopts := updateOffset_opts ops rw now
  have hlen2 : (rw.updateOffset ops now).buckets.length = rw.opts.size.toNat := by
    rw [updateOffset_length, hlen]
  have hrange := updateOffset_offset_range ops rw now hoff hofflt
  unfold idxModify?
  rw [if_neg (show ¬ (rw.updateOffset ops now).opts.size = 0 by
    rw [hopts]; omega)]
  have hnn : 0 ≤ (rw.updateOffset ops now).offset.tmod
      (rw.updateOffset ops now).opts.size := by
    rw [hopts]
    exact Int.tmod_nonneg _ hrange.1
  have hlt : ((rw.updateOffset ops now).offset.tmod
      (rw.updateOffset ops now).opts.size).toNat <
      (rw.updateOffset ops now).buckets.length := by
    rw [hopts, hlen2, tmod_toNat_slot hrange.1 hsize]
    exact slot_lt hsize _
  rw [if_pos ⟨hnn, hlt⟩, Option.some_bind]
  rfl

theorem windowReduceChecked_eq {B : Type} [Inhabited B] {size : Int}
    (hsize : 0 < size) (bs : List B) (hlen : bs.length = size.toNat) (n : Nat) :
    ∀ start : Int, 0 ≤ start →
      windowReduceChecked size bs start n = some (windowReduce size bs start n) := by
  induction n with
  | zero =>
    intro start _
    rfl
  | succ n ih =>
    intro start hstart
    have hlt : (start.tmod size).toNat < bs.length := by
      rw [hlen, tmod_toNat_slot hstart hsize]
      exact slot_lt hsize start
    rw [windowReduceChecked, windowReduce]
    unfold idxRead?
    rw [if_neg (by omega), if_pos (Int.tmod_nonneg size hstart),
      List.getElem?_eq_getElem hlt, Option.some_bind, ih (start + 1) (by omega),
      Option.map_some']
    have hgd : bs.getD (start.tmod size).toNat default =
        bs[(start.tmod size).toNat] := by
      rw [List.getD_eq_getElem?_getD, List.getElem?_eq_getElem hlt,
        Option.getD_some]
    rw [hgd]

theorem ReduceChecked_eq {B : Type} [Inhabited B] (rw : RollingWindow B)
    (now : Int) (hint : rw.opts.interval ≠ 0) (hsize : 0 < rw.opts.size)
    (hlen : rw.buckets.length = rw.opts.size.toNat) (hoff : 0 ≤ rw.offset) :
    rw.ReduceChecked now = some (rw.Reduce now) := by
  have hsp := span_nonneg rw now hsize
  simp only [RollingWindow.ReduceChecked, RollingWindow.spanChecked,
    if_neg hint, Option.some_bind, RollingWindow.Reduce]
  by_cases hd : 0 < (if rw.span now = 0 ∧ rw.opts.ignoreCurrent then
      rw.opts.size - 1 else rw.opts.size - rw.span now)
  · rw [if_pos hd, if_pos hd, if_neg (show ¬ rw.opts.size = 0 by omega)]
    exact windowReduceChecked_eq hsize rw.buckets hlen _ _
      (Int.tmod_nonneg _ (by omega))
  · rw [if_neg hd, if_neg hd]

theorem GetLastValidBucketChecked_eq {B : Type} [Inhabited B]
    (rw : RollingWindow B) (now : Int) (hint : rw.opts.interval ≠ 0)
    (hsize : 0 < rw.opts.size)
    (hlen : rw.buckets.length = rw.opts.size.toNat) (hoff : 0 ≤ rw.offset) :
    rw.GetLastValidBucketChecked now = some (rw.GetLastValidBucket now) := by
  have hsp := span_nonneg rw now hsize
  simp only [RollingWindow.GetLastValidBucketChecked, RollingWindow.spanChecked,
    if_neg hint, Option.some_bind, RollingWindow.GetLastValidBucket]
  by_cases hd : (if rw.span now = 0 ∧ rw.opts.ignoreCurrent then
      rw.opts.size - 1 else rw.opts.size - rw.span now) ≤ 0
  · rw [if_pos hd, if_pos hd]
  · rw [if_neg hd, if_neg hd, if_neg (show ¬ rw.opts.size = 0 by omega)]
    unfold idxRead?
    rw [if_neg (show ¬ rw.opts.size = 0 by omega)]
    have hstart : 0 ≤ (rw.offset + rw.span now + 1).tmod rw.opts.size :=
      Int.tmod_nonneg _ (by omega)
    have harg : 0 ≤ (rw.offset + rw.span now + 1).tmod rw.opts.size +
        (if rw.span now = 0 ∧ rw.opts.ignoreCurrent then rw.opts.size - 1
          else rw.opts.size - rw.span now) - 1 := by omega
    rw [if_pos (Int.tmod_nonneg _ harg)]
    have hlt : ((((rw.offset + rw.span now + 1).tmod rw.opts.size +
        (if rw.span now = 0 ∧ rw.opts.ignoreCurrent then rw.opts.size - 1
          else rw.opts.size - rw.span now) - 1)).tmod rw.opts.size).toNat <
        rw.buckets.length := by
      rw [hlen, tmod_toNat_slot harg hsize]
      exact slot_lt hsize _
    rw [List.getElem?_eq_getElem hlt, Option.map_some']
    have hgd : rw.buckets.getD (((rw.offset + rw.span now + 1).tmod rw.opts.size +
        (if rw.span now = 0 ∧ rw.opts.ignoreCurrent then rw.opts.size - 1
          else rw.opts.size - rw.span now) - 1).tmod rw.opts.size).toNat default =
        rw.buckets[(((rw.offset + rw.span now + 1).tmod rw.opts.size +
          (if rw.span now = 0 ∧ rw.opts.ignoreCurrent then rw.opts.size - 1
            else rw.opts.size - rw.span now) - 1).tmod rw.opts.size).toNat] := by
      rw [List.getD_eq_getElem?_getD, List.getElem?_eq_getElem hlt,
        Option.getD_some]
    rw [hgd]

/-! ### Claims C7 and C10 -/

/-- A successfully constructed window whose interval is zero. -/
def rwZeroInterval : RollingWindow Bucket :=
  { buckets := [⟨0, 0⟩], lastTime := 0, offset := 0,
    opts := { size := 1, interval := 0, ignoreCurrent := false } }

/-- C7 counterexample: a window with `interval = 0` is successfully
constructed (only `size < 1` is rejected at construction), yet every
subsequent `Add`, `Reduce` or `GetLastValidBucket` call divides by the zero
interval inside `span` and panics — refuting "for every successfully
constructed window, Add, Reduce, and GetLastValidBucket never fail". -/
theorem C7_counterexample :
    NewRollingWindow (⟨0, 0⟩ : Bucket) rwZeroInterval.opts 0 =
      some rwZeroInterval ∧
    rwZeroInterval.AddChecked bucketOps 5 1 = none ∧
    rwZeroInterval.ReduceChecked 5 = none ∧
    rwZeroInterval.GetLastValidBucketChecked 5 = none := by
  decide

/-- C7 amended: construction raises the configuration error exactly when
`size < 1` (it fails rather than clamping), and for every successfully
constructed window *whose interval is nonzero*, `Add`, `Reduce` and
`GetLastValidBucket` never fail for any input value and any behaviour of
the monotonic time source (clock regression and arbitrarily large gaps
included — the saturating span clamp absorbs them).  The `interval ≠ 0`
proviso is forced by the counterexample: `interval` is not validated at
construction and a zero interval makes every operation divide by zero. -/
theorem C7_amended_totality {T B : Type} [Inhabited B] (ops : BucketOps T B)
    (newBucket : B) (opts : RollingWindowOptions) (t0 : Int)
    (rw : RollingWindow B) (now : Int) (v : T)
    (hint : rw.opts.interval ≠ 0)
    (hlen : rw.buckets.length = rw.opts.size.toNat)
    (hoff : 0 ≤ rw.offset) (hofflt : rw.offset < rw.opts.size) :
    (NewRollingWindow newBucket opts t0 = none ↔ opts.size < 1) ∧
    (rw.AddChecked ops now v).isSome = true ∧
    (rw.ReduceChecked now).isSome = true ∧
    (rw.GetLastValidBucketChecked now).isSome = true := by
  have hsize : 0 < rw.opts.size := by omega
  refine ⟨?_, ?_, ?_, ?_⟩
  · unfold NewRollingWindow
    by_cases h : opts.size < 1
    · simp [h]
    · simp [h]
  · rw [AddChecked_eq ops rw now v hint hlen hoff hofflt]
    rfl
  · rw [ReduceChecked_eq rw now hint hsize hlen hoff]
    rfl
  · rw [GetLastValidBucketChecked_eq rw now hint hsize hlen hoff]
    rfl

/-- Witness for the amended C7: the construction-error equivalence at a
`size = 0` configuration, and totality of `Add` on the concrete window
`rwC1`. -/
theorem C7_witness :
    (rwC1.opts.interval ≠ 0 ∧ rwC1.buckets.length = rwC1.opts.size.toNat ∧
      (0 : Int) ≤ rwC1.offset ∧ rwC1.offset < rwC1.opts.size) ∧
    (NewRollingWindow (⟨0, 0⟩ : Bucket)
        (⟨0, 60, false⟩ : RollingWindowOptions) 0 = none ↔
      (⟨0, 60, false⟩ : RollingWindowOptions).size < 1) ∧
    (rwC1.AddChecked bucketOps 25 7).isSome = true :=
  ⟨⟨by decide, by decide, by decide, by decide⟩,
    (C7_amended_totality bucketOps ⟨0, 0⟩ ⟨0, 60, false⟩ 0 rwC1 25 7 (by decide)
      (by decide) (by decide) (by decide)).1,
    (C7_amended_totality bucketOps ⟨0, 0⟩ ⟨0, 60, false⟩ 0 rwC1 25 7 (by decide)
      (by decide) (by decide) (by decide)).2.1⟩

/-- C10: construction never validates `interval` — it succeeds for every
interval value, zero and negative included, whenever `size ≥ 1`; for a
window whose interval is zero, every subsequent `Add`, `Reduce` or
`GetLastValidBucket` call reaches the integer division by `interval` inside
`span` and panics (the checked layer returns `none`, originating in
`spanChecked`); with `interval > 0` the same operations from a well-formed
state never panic. -/
theorem C10_interval_never_validated {T B : Type} [Inhabited B]
    (ops : BucketOps T B) (newBucket : B) (size interval : Int) (ign : Bool)
    (t0 : Int) (rw rwP : RollingWindow B) (now : Int) (v : T)
    (hsize : 1 ≤ size)
    (hzero : rw.opts.interval = 0)
    (hintP : 0 < rwP.opts.interval)
    (hlenP : rwP.buckets.length = rwP.opts.size.toNat)
    (hoffP : 0 ≤ rwP.offset) (hoffltP : rwP.offset < rwP.opts.size) :
    (NewRollingWindow newBucket ⟨size, interval, ign⟩ t0).isSome = true ∧
    rw.spanChecked now = none ∧
    rw.AddChecked ops now v = none ∧
    rw.ReduceChecked now = none ∧
    rw.GetLastValidBucketChecked now = none ∧
    (rwP.AddChecked ops now v).isSome = true ∧
    (rwP.ReduceChecked now).isSome = true ∧
    (rwP.GetLastValidBucketChecked now).isSome = true := by
  have hsizeP : 0 < rwP.opts.size := by omega
  refine ⟨?_, ?_, ?_, ?_, ?_, ?_, ?_, ?_⟩
  · unfold NewRollingWindow
    rw [if_neg (show ¬ (⟨size, interval, ign⟩ : RollingWindowOptions).size < 1 by
      dsimp only
      omega)]
    rfl
  · simp [RollingWindow.spanChecked, hzero]
  · simp [RollingWindow.AddChecked, RollingWindow.updateOffsetChecked,
      RollingWindow.spanChecked, hzero]
  · simp [RollingWindow.ReduceChecked, RollingWindow.spanChecked, hzero]
  · simp [RollingWindow.GetLastValidBucketChecked, RollingWindow.spanChecked,
      hzero]
  · rw [AddChecked_eq ops rwP now v (by omega) hlenP hoffP hoffltP]
    rfl
  · rw [ReduceChecked_eq rwP now (by omega) hsizeP hlenP hoffP]
    rfl
  · rw [GetLastValidBucketChecked_eq rwP now (by omega) hsizeP hlenP hoffP]
    rfl

/-- Witness for C10: a negative interval is accepted at construction, a zero
interval makes `Add` panic on the concrete `rwZeroInterval`, and on the
concrete `rwC1` (positive interval) `Reduce` succeeds. -/
theorem C10_witness :
    ((1 : Int) ≤ 2 ∧ rwZeroInterval.opts.interval = 0 ∧
      (0 : Int) < rwC1.opts.interval) ∧
    (NewRollingWindow (⟨0, 0⟩ : Bucket)
      (⟨2, -3, true⟩ : RollingWindowOptions) 0).isSome = true ∧
    rwZeroInterval.AddChecked bucketOps 5 1 = none ∧
    (rwC1.ReduceChecked 25).isSome = true :=
  ⟨⟨by decide, by decide, by decide⟩,
    (C10_interval_never_validated bucketOps ⟨0, 0⟩ 2 (-3) true 0 rwZeroInterval
      rwC1 5 1 (by decide) (by decide) (by decide) (by decide) (by decide)
      (by decide)).1,
    (C10_interval_never_validated bucketOps ⟨0, 0⟩ 2 (-3) true 0 rwZeroInterval
      rwC1 5 1 (by decide) (by decide) (by decide) (by decide) (by decide)
      (by decide)).2.2.1,
    (C10_interval_never_validated bucketOps ⟨0, 0⟩ 2 (-3) true 0 rwZeroInterval
      rwC1 25 1 (by decide) (by decide) (by decide) (by decide) (by decide)
      (by decide)).2.2.2.2.2.2.1⟩

/-! ### Claim C6: ghost-instrumented eviction invariant

To observe *which* `Add` contributions a bucket still holds, instantiate the
bucket capability at the "ghost" accumulator that records every added
`(value, timestamp)` pair: `Add` appends, `Reset` clears.  This is a
legitimate instance of the source's `BucketInterface`, and the window code
is parametric in the bucket type, so the instrumented window performs
exactly the rotations of the real one. -/

/-- The ghost accumulator: a bucket is the list of its still-held
`(value, add-time)` contributions. -/
def ghostOps : BucketOps (Int × Int) (List (Int × Int)) :=
  { add := fun b p => b ++ [p], reset := fun _ => [] }

/-- Run a trace of timestamped `Add` calls: at each `(t, v)` the window's
`Add` is invoked at time `t` with the ghost value `(v, t)`. -/
def ghostRun : List (Int × Int) → RollingWindow (List (Int × Int)) →
    RollingWindow (List (Int × Int))
  | [], rw => rw
  | (t, v) :: rest, rw => ghostRun rest (rw.Add ghostOps t (v, t))

/-- The trace's call times are nondecreasing, starting no earlier than `c`
(the monotonic time source guarantees this shape). -/
def TimesOK : Int → List (Int × Int) → Prop
  | _, [] => True
  | c, (t, _) :: rest => c ≤ t ∧ TimesOK t rest

/-- The time of the last call of the trace (or `c` for the empty trace). -/
def endTime : Int → List (Int × Int) → Int
  | c, [] => c
  | _, (t, _) :: rest => endTime t rest

/-- Inductive invariant for eviction: the window is well-formed, `lastTime`
is at most the current time `tcur`, and every ghost contribution held by the
bucket `k` slots behind the current offset was added at time
`lastTime - k * interval` or later. -/
structure GhostInv (rw : RollingWindow (List (Int × Int))) (tcur : Int) :
    Prop where
  hlen : rw.buckets.length = rw.opts.size.toNat
  hoff0 : 0 ≤ rw.offset
  hofflt : rw.offset < rw.opts.size
  hlast : rw.lastTime ≤ tcur
  hlow : ∀ k : Nat, (k : Int) < rw.opts.size →
    ∀ e ∈ rw.buckets.getD (slot rw.opts.size (rw.offset - (k : Int))) [],
      rw.lastTime - (k : Int) * rw.opts.interval ≤ e.2

theorem GhostInv.mono {rw : RollingWindow (List (Int × Int))} {t t' : Int}
    (h : GhostInv rw t) (ht : t ≤ t') : GhostInv rw t' :=
  ⟨h.hlen, h.hoff0, h.hofflt, le_trans h.hlast ht, h.hlow⟩

/-- The freshly constructed window satisfies the invariant at its creation
time: all buckets are empty. -/
theorem GhostInv_init (opts : RollingWindowOptions) (t0 : Int)
    (hsize : 1 ≤ opts.size) :
    GhostInv
      { buckets := List.replicate opts.size.toNat []
        lastTime := t0
        offset := 0
        opts := opts } t0 := by
  refine ⟨by simp, le_refl 0, by dsimp only; omega, le_refl t0, ?_⟩
  intro k hk e he
  dsimp only at he
  rw [List.getD_eq_getElem?_getD, List.getElem?_replicate] at he
  by_cases hlt : slot opts.size (0 - (k : Int)) < opts.size.toNat
  · rw [if_pos hlt] at he
    simp at he
  · rw [if_neg hlt] at he
    simp at he

theorem mem_getD_of_getElem? {α : Type} {l : List (List α)} {p : Nat} {e : α}
    (he : e ∈ l.getD p []) : ∃ b, l[p]? = some b ∧ e ∈ b := by
  rw [List.getD_eq_getElem?_getD] at he
  rcases hx : l[p]? with _ | b
  · rw [hx] at he
    simp at he
  · refine ⟨b, rfl, ?_⟩
    rw [hx] at he
    exact he

theorem mem_getD_of_some {α : Type} {l : List (List α)} {p : Nat}
    {b : List α} (hx : l[p]? = some b) {e : α} (he : e ∈ b) :
    e ∈ l.getD p [] := by
  rw [List.getD_eq_getElem?_getD, hx]
  exact he

/-- One `Add` call preserves the ghost invariant, restated at the call's
time. -/
theorem GhostInv_add {rw : RollingWindow (List (Int × Int))} {tcur : Int}
    (now v : Int) (hsize : 0 < rw.opts.size) (hint : 0 < rw.opts.interval)
    (hI : GhostInv rw tcur) (hts : tcur ≤ now) :
    GhostInv (rw.Add ghostOps now (v, now)) now := by
  have hmono : rw.lastTime ≤ now := le_trans hI.hlast hts
  have hoffI : 0 ≤ rw.offset := hI.hoff0
  have hoffltI : rw.offset < rw.opts.size := hI.hofflt
  have hsp0 : 0 ≤ rw.span now := span_nonneg rw now hsize
  have hsple : rw.span now ≤ rw.opts.size := span_le rw now
  have hopts : (rw.Add ghostOps now (v, now)).opts = rw.opts :=
    Add_opts _ rw now _
  have hlen' : (rw.Add ghostOps now (v, now)).buckets.length =
      rw.opts.size.toNat := by
    rw [Add_length, hI.hlen]
  by_cases hsp : rw.span now ≤ 0
  · -- no rotation: the value lands in the current bucket
    have hadd := Add_of_span_nonpos ghostOps rw now (v, now) hsp
    refine ⟨hopts ▸ hlen', ?_, ?_, ?_, ?_⟩
    · rw [hadd]
      exact hI.hoff0
    · rw [hadd]
      exact hI.hofflt
    · rw [hadd]
      exact hmono
    · rw [hadd]
      dsimp only
      intro k hk e he
      have hkI : 0 ≤ (k : Int) * rw.opts.interval :=
        mul_nonneg (Int.natCast_nonneg k) (le_of_lt hint)
      obtain ⟨b, hb, heb⟩ := mem_getD_of_getElem? he
      rw [windowAdd_getElem? ghostOps hsize rw.buckets hI.hoff0 (v, now)] at hb
      by_cases hkw : slot rw.opts.size (rw.offset - (k : Int)) =
          slot rw.opts.size rw.offset
      · rw [if_pos hkw] at hb
        rcases hx : rw.buckets[slot rw.opts.size (rw.offset - (k : Int))]? with
          _ | b0
        · rw [hx] at hb
          exact absurd hb (by simp)
        · rw [hx] at hb
          simp only [Option.map_some', Option.some.injEq] at hb
          subst hb
          rcases List.mem_append.mp heb with hold | hnew
          · exact hI.hlow k hk e (mem_getD_of_some hx hold)
          · have hev : e = (v, now) := by simpa [ghostOps] using hnew
            subst hev
            dsimp only
            linarith
      · rw [if_neg hkw] at hb
        exact hI.hlow k hk e (mem_getD_of_some hb heb)
  · -- rotation: span buckets are reset, the value lands in the new current
    -- bucket, the rest slide back by span slots
    have hpos : 0 < rw.span now := by omega
    have hadd := Add_of_span_pos ghostOps rw now (v, now) hpos
    have hAoff : (rw.Add ghostOps now (v, now)).offset =
        (rw.offset + rw.span now).tmod rw.opts.size := by
      rw [hadd]
    have hAlast : (rw.Add ghostOps now (v, now)).lastTime =
        now - (now - rw.lastTime).tmod rw.opts.interval := by
      rw [hadd]
    have htmnn : 0 ≤ (now - rw.lastTime).tmod rw.opts.interval :=
      Int.tmod_nonneg rw.opts.interval (by omega)
    have hexact : rw.span now < rw.opts.size →
        now - (now - rw.lastTime).tmod rw.opts.interval =
          rw.lastTime + rw.span now * rw.opts.interval := by
      intro hlt
      obtain ⟨hspe, _⟩ := span_eq_tdiv_of_lt_size hlt
      have htd : (now - rw.lastTime).tdiv rw.opts.interval =
          (now - rw.lastTime) / rw.opts.interval :=
        Int.tdiv_eq_ediv (by omega) (by omega)
      have htm : (now - rw.lastTime).tmod rw.opts.interval =
          (now - rw.lastTime) % rw.opts.interval :=
        Int.tmod_eq_emod (by omega) (by omega)
      have hdm := Int.ediv_add_emod (now - rw.lastTime) rw.opts.interval
      rw [htm, hspe, htd]
      linarith
    refine ⟨hopts ▸ hlen', ?_, ?_, ?_, ?_⟩
    · rw [hAoff]
      exact Int.tmod_nonneg _ (by omega)
    · rw [hopts, hAoff]
      exact Int.tmod_lt_of_pos _ hsize
    · rw [hAlast]
      omega
    · simp only [hopts, hAoff, hAlast]
      intro k hk e he
      have hps : slot rw.opts.size
          ((rw.offset + rw.span now).tmod rw.opts.size - (k : Int)) =
          slot rw.opts.size (rw.offset + rw.span now - (k : Int)) := by
        rw [sub_eq_add_neg, sub_eq_add_neg]
        exact slot_tmod_add (-(k : Int)) (by omega) hsize
      rw [hps] at he
      obtain ⟨b, hb, heb⟩ := mem_getD_of_getElem? he
      have hkI : 0 ≤ (k : Int) * rw.opts.interval :=
        mul_nonneg (Int.natCast_nonneg k) (le_of_lt hint)
      by_cases hkw : slot rw.opts.size (rw.offset + rw.span now - (k : Int)) =
          slot rw.opts.size (rw.offset + rw.span now)
      · -- the new current bucket: it holds exactly the new entry
        rw [hkw, Add_buckets_pos_current ghostOps (v, now) hsize hI.hoff0 hpos]
          at hb
        rcases hx : rw.buckets[slot rw.opts.size
            (rw.offset + rw.span now)]? with _ | b0
        · rw [hx] at hb
          exact absurd hb (by simp)
        · rw [hx] at hb
          simp only [Option.map_some', Option.some.injEq] at hb
          subst hb
          have hev : e = (v, now) := by simpa [ghostOps] using heb
          subst hev
          dsimp only
          linarith
      · -- not the write slot, so k ≥ 1
        have hk1 : 1 ≤ (k : Int) := by
          rcases Nat.eq_zero_or_pos k with h0 | h1
          · exfalso
            apply hkw
            rw [h0]
            norm_num
          · exact_mod_cast h1
        by_cases hks : (k : Int) < rw.span now
        · -- a freshly reset slot: no entries survive, contradiction
          have hc : rw.offset + (((rw.span now - (k : Int) - 1).toNat : Nat) : Int)
              + 1 = rw.offset + rw.span now - (k : Int) := by omega
          rw [← hc] at hb hkw
          rw [Add_buckets_pos_reset ghostOps (v, now) hsize hI.hoff0 hpos
            (by omega) hkw] at hb
          rcases hx : rw.buckets[slot rw.opts.size (rw.offset +
              (((rw.span now - (k : Int) - 1).toNat : Nat) : Int) + 1)]? with
            _ | b0
          · rw [hx] at hb
            exact absurd hb (by simp)
          · rw [hx] at hb
            simp only [Option.map_some', Option.some.injEq] at hb
            subst hb
            exact absurd heb (by simp [ghostOps])
        · -- a surviving historical slot: use the old invariant, shifted
          have hsplt : rw.span now < rw.opts.size := by omega
          have huntouched : (rw.Add ghostOps now (v, now)).buckets[slot
              rw.opts.size (rw.offset + rw.span now - (k : Int))]? =
              rw.buckets[slot rw.opts.size
                (rw.offset + rw.span now - (k : Int))]? := by
            refine Add_buckets_pos_untouched ghostOps (v, now) hsize hI.hoff0
              hpos (fun j hj => ?_)
            have e1 : rw.offset + rw.span now - (k : Int) =
                rw.offset + (rw.span now - (k : Int)) := by ring
            have e2 : rw.offset + (j : Int) + 1 =
                rw.offset + ((j : Int) + 1) := by ring
            rw [e1, e2]
            exact (slot_ne_of_small_gap hsize (by omega) (by omega)).symm
          rw [huntouched] at hb
          have hk0n : (((((k : Int) - rw.span now).toNat : Nat)) : Int) =
              (k : Int) - rw.span now := by omega
          have hparg : rw.offset + rw.span now - (k : Int) =
              rw.offset - ((((k : Int) - rw.span now).toNat : Nat) : Int) := by
            omega
          rw [hparg] at hb
          have hold := hI.hlow (((k : Int) - rw.span now).toNat)
            (by omega) e (mem_getD_of_some hb heb)
          rw [hk0n] at hold
          have hfin := hexact hsplt
          nlinarith [hold, hfin]

theorem ghostRun_opts (ts : List (Int × Int)) :
    ∀ rw : RollingWindow (List (Int × Int)), (ghostRun ts rw).opts = rw.opts := by
  induction ts with
  | nil =>
    intro rw
    rfl
  | cons c rest ih =>
    obtain ⟨t, v⟩ := c
    intro rw
    show (ghostRun rest (rw.Add ghostOps t (v, t))).opts = rw.opts
    rw [ih, Add_opts]

/-- Running a trace of `Add` calls with nondecreasing times preserves the
ghost invariant up to the trace's last call time. -/
theorem ghostRun_inv (ts : List (Int × Int)) :
    ∀ (rw : RollingWindow (List (Int × Int))) (tcur : Int),
      0 < rw.opts.size → 0 < rw.opts.interval → GhostInv rw tcur →
      TimesOK tcur ts → GhostInv (ghostRun ts rw) (endTime tcur ts) := by
  induction ts with
  | nil =>
    intro rw tcur _ _ hI _
    exact hI
  | cons c rest ih =>
    obtain ⟨t, v⟩ := c
    intro rw tcur hsize hint hI hT
    have hstep := GhostInv_add t v hsize hint hI hT.1
    have hopts := Add_opts ghostOps rw t (v, t)
    exact ih (rw.Add ghostOps t (v, t)) t (by rw [hopts]; exact hsize)
      (by rw [hopts]; exact hint) hstep hT.2

/-- Any contribution of any bucket that `Reduce` visits was added strictly
within the last `size * interval` before the call. -/
theorem reduce_entry_bound (rw : RollingWindow (List (Int × Int))) (T : Int)
    (hsize : 0 < rw.opts.size) (hint : 0 < rw.opts.interval)
    (hI : GhostInv rw T) :
    ∀ b ∈ rw.Reduce T, ∀ e ∈ b,
      T - e.2 < rw.opts.size * rw.opts.interval := by
  intro b hbmem e he
  have hsp0 : 0 ≤ rw.span T := span_nonneg rw T hsize
  have hsple : rw.span T ≤ rw.opts.size := span_le rw T
  have hlastI : rw.lastTime ≤ T := hI.hlast
  by_cases hd : 0 < (if rw.span T = 0 ∧ rw.opts.ignoreCurrent then
      rw.opts.size - 1 else rw.opts.size - rw.span T)
  case neg =>
    rw [(Reduce_char rw T hsize hI.hoff0).1 (by omega)] at hbmem
    simp at hbmem
  case pos =>
    rw [(Reduce_char rw T hsize hI.hoff0).2 hd] at hbmem
    simp only [List.mem_map, List.mem_range] at hbmem
    obtain ⟨i, hi, hbeq⟩ := hbmem
    subst hbeq
    have hsd : rw.span T < rw.opts.size ∧
        (i : Int) ≤ rw.opts.size - rw.span T - 1 := by
      by_cases hig : rw.span T = 0 ∧ rw.opts.ignoreCurrent
      · obtain ⟨h1, h2⟩ := hig
        rw [if_pos ⟨h1, h2⟩] at hd hi
        constructor <;> omega
      · rw [if_neg hig] at hd hi
        constructor <;> omega
    obtain ⟨hsplt, hiub⟩ := hsd
    -- the visited slot is `k` slots behind the current offset
    have hk0 : (0 : Int) ≤ rw.opts.size - rw.span T - 1 - (i : Int) := by omega
    have hidx : slot rw.opts.size (rw.offset + rw.span T + 1 + (i : Int)) =
        slot rw.opts.size (rw.offset -
          (((rw.opts.size - rw.span T - 1 - (i : Int)).toNat : Nat) : Int)) := by
      have e3 : rw.offset + rw.span T + 1 + (i : Int) =
          (rw.offset -
            (((rw.opts.size - rw.span T - 1 - (i : Int)).toNat : Nat) : Int)) +
            rw.opts.size := by omega
      rw [e3, slot_add_size]
    rw [hidx] at he
    have hold := hI.hlow ((rw.opts.size - rw.span T - 1 - (i : Int)).toNat)
      (by omega) e he
    rw [show ((((rw.opts.size - rw.span T - 1 - (i : Int)).toNat : Nat)) : Int) =
      rw.opts.size - rw.span T - 1 - (i : Int) by omega] at hold
    -- span did not clamp, so T is within one interval of the span boundary
    obtain ⟨hspe, _⟩ := span_eq_tdiv_of_lt_size hsplt
    have hE : 0 ≤ T - rw.lastTime := by omega
    have htd : (T - rw.lastTime).tdiv rw.opts.interval =
        (T - rw.lastTime) / rw.opts.interval := Int.tdiv_eq_ediv hE (by omega)
    have hdm := Int.ediv_add_emod (T - rw.lastTime) rw.opts.interval
    have hml := Int.emod_lt_of_pos (T - rw.lastTime) hint
    have hq : (T - rw.lastTime) / rw.opts.interval = rw.span T := by
      rw [hspe, htd]
    rw [hq] at hdm
    have hTb : T - rw.lastTime < (rw.span T + 1) * rw.opts.interval := by
      nlinarith [hdm, hml]
    have hmul : (rw.span T + 1 + (rw.opts.size - rw.span T - 1 - (i : Int))) *
        rw.opts.interval ≤ rw.opts.size * rw.opts.interval :=
      mul_le_mul_of_nonneg_right (by omega) (le_of_lt hint)
    nlinarith [hold, hTb, hmul]

/-- C6: starting from a freshly constructed (ghost-instrumented) window, for
every trace of `Add` calls with nondecreasing times and every later `Reduce`
at time `T`, every contribution the visitor can still see was added strictly
within the last `size * interval` of elapsed time — any value added more
than `size * interval` before the `Reduce` has been evicted and is never
passed to the visitor. -/
theorem C6_eviction_boundary (opts : RollingWindowOptions) (t0 : Int)
    (rw0 : RollingWindow (List (Int × Int))) (ts : List (Int × Int)) (T : Int)
    (hint : 0 < opts.interval)
    (hnew : NewRollingWindow [] opts t0 = some rw0)
    (hts : TimesOK t0 ts) (hT : endTime t0 ts ≤ T) :
    ∀ b ∈ (ghostRun ts rw0).Reduce T, ∀ e ∈ b,
      T - e.2 < opts.size * opts.interval := by
  have hc : ¬ opts.size < 1 := by
    intro hlt
    rw [NewRollingWindow, if_pos hlt] at hnew
    exact Option.noConfusion hnew
  rw [NewRollingWindow, if_neg hc] at hnew
  have hrw0 := Option.some.inj hnew
  have hinit : GhostInv rw0 t0 := by
    rw [← hrw0]
    exact GhostInv_init opts t0 (by omega)
  have hopts0 : rw0.opts = opts := by
    rw [← hrw0]
  have hfin := ghostRun_inv ts rw0 t0 (by rw [hopts0]; omega)
    (by rw [hopts0]; exact hint) hinit hts
  have hoptsrun : (ghostRun ts rw0).opts = opts := by
    rw [ghostRun_opts, hopts0]
  have hbound := reduce_entry_bound (ghostRun ts rw0) T
    (by rw [hoptsrun]; omega) (by rw [hoptsrun]; exact hint) (hfin.mono hT)
  intro b hb e he
  have := hbound b hb e he
  rwa [hoptsrun] at this

/-- Witness for C6: a two-bucket window with interval 10, adds at times 5
and 12, reduced at time 40 — every visible contribution is younger than
`2 * 10` before `T = 40` (indeed here nothing old remains visible). -/
theorem C6_witness :
    ((0 : Int) < (⟨2, 10, false⟩ : RollingWindowOptions).interval ∧
      NewRollingWindow ([] : List (Int × Int)) ⟨2, 10, false⟩ 0 =
        some ⟨[[], []], 0, 0, ⟨2, 10, false⟩⟩ ∧
      TimesOK 0 [(5, 100), (12, 200)] ∧
      endTime 0 [(5, 100), (12, 200)] ≤ 40) ∧
    (∀ b ∈ (ghostRun [(5, 100), (12, 200)]
        (⟨[[], []], 0, 0, ⟨2, 10, false⟩⟩ :
          RollingWindow (List (Int × Int)))).Reduce 40,
      ∀ e ∈ b, 40 - e.2 < (⟨2, 10, false⟩ : RollingWindowOptions).size *
        (⟨2, 10, false⟩ : RollingWindowOptions).interval) :=
  ⟨⟨by decide, by decide, ⟨by decide, by decide, trivial⟩, by decide⟩,
    C6_eviction_boundary ⟨2, 10, false⟩ 0
      ⟨[[], []], 0, 0, ⟨2, 10, false⟩⟩ [(5, 100), (12, 200)] 40 (by decide)
      (by decide) ⟨by decide, by decide, trivial⟩ (by decide)⟩

/-! ### Claim C9 -/

/-- Serialisation of producer calls: each Go `Add` holds the exclusive mutex
for its whole body, so any concurrent execution of a set of `Add` calls is
observationally some ordering of complete calls; `applyAdds` folds one such
ordering. -/
def applyAdds {T B : Type} (ops : BucketOps T B) :
    List (Int × T) → RollingWindow B → RollingWindow B
  | [], rw => rw
  | (t, v) :: rest, rw => applyAdds ops rest (rw.Add ops t v)

theorem span_eq_zero_of_lt {B : Type} (rw : RollingWindow B) (now : Int)
    (hsize : 0 < rw.opts.size)
    (h1 : rw.lastTime ≤ now) (h2 : now < rw.lastTime + rw.opts.interval) :
    rw.span now = 0 := by
  simp only [RollingWindow.span]
  rw [Int.tdiv_eq_zero_of_lt (by omega) (by omega)]
  rw [if_pos ⟨le_refl 0, hsize⟩]

/-- Any number of `Add 1` calls all landing inside the current interval
leave offset, lastTime and every other bucket unchanged and bump the
current bucket's sum and count by exactly the number of calls. -/
theorem applyAdds_one_interval (calls : List (Int × Int)) :
    ∀ rw : RollingWindow Bucket,
      0 < rw.opts.size → 0 < rw.opts.interval →
      0 ≤ rw.offset → rw.offset < rw.opts.size →
      (∀ c ∈ calls, rw.lastTime ≤ c.1 ∧ c.1 < rw.lastTime + rw.opts.interval ∧
        c.2 = 1) →
      (applyAdds bucketOps calls rw).offset = rw.offset ∧
      (applyAdds bucketOps calls rw).lastTime = rw.lastTime ∧
      (applyAdds bucketOps calls rw).opts = rw.opts ∧
      (∀ b : Bucket, rw.buckets[rw.offset.toNat]? = some b →
        (applyAdds bucketOps calls rw).buckets[rw.offset.toNat]? =
          some ⟨b.Sum + calls.length, b.Count + calls.length⟩) ∧
      (∀ p : Nat, p ≠ rw.offset.toNat →
        (applyAdds bucketOps calls rw).buckets[p]? = rw.buckets[p]?) := by
  induction calls with
  | nil =>
    intro rw _ _ _ _ _
    refine ⟨rfl, rfl, rfl, fun b hb => ?_, fun p _ => rfl⟩
    rw [show applyAdds bucketOps [] rw = rw from rfl, hb]
    simp
  | cons c rest ih =>
    obtain ⟨t, v⟩ := c
    intro rw hsize hint hoff hofflt hcalls
    obtain ⟨hct1, hct2, hcv⟩ := hcalls (t, v) (List.mem_cons_self _ _)
    have hcv' : v = 1 := hcv
    subst hcv'
    have hct1' : rw.lastTime ≤ t := hct1
    have hct2' : t < rw.lastTime + rw.opts.interval := hct2
    have hsp : rw.span t = 0 := span_eq_zero_of_lt rw t hsize hct1' hct2'
    have hadd := Add_of_span_nonpos bucketOps rw t 1 (by omega)
    have h1off : (rw.Add bucketOps t 1).offset = rw.offset := by rw [hadd]
    have h1last : (rw.Add bucketOps t 1).lastTime = rw.lastTime := by rw [hadd]
    have h1opts : (rw.Add bucketOps t 1).opts = rw.opts := by rw [hadd]
    have h1buckets : ∀ p : Nat, (rw.Add bucketOps t 1).buckets[p]? =
        if p = rw.offset.toNat then
          (rw.buckets[p]?).map (fun b => Bucket.add b 1)
        else rw.buckets[p]? := by
      intro p
      rw [hadd]
      dsimp only
      rw [windowAdd_getElem? bucketOps hsize rw.buckets hoff 1 p,
        slot_eq_of_lt hoff hofflt]
      rfl
    have ih1 := ih (rw.Add bucketOps t 1) (by rw [h1opts]; exact hsize)
      (by rw [h1opts]; exact hint) (by rw [h1off]; exact hoff)
      (by rw [h1off, h1opts]; exact hofflt)
      (by
        intro c hc
        obtain ⟨hc1, hc2, hc3⟩ := hcalls c (List.mem_cons_of_mem _ hc)
        rw [h1last, h1opts]
        exact ⟨hc1, hc2, hc3⟩)
    rw [h1off, h1last, h1opts] at ih1
    refine ⟨ih1.1, ih1.2.1, ih1.2.2.1, ?_, ?_⟩
    · intro b hb
      have hb1 : (rw.Add bucketOps t 1).buckets[rw.offset.toNat]? =
          some (Bucket.add b 1) := by
        rw [h1buckets, if_pos rfl, hb, Option.map_some']
      have hres := ih1.2.2.2.1 (Bucket.add b 1) hb1
      show (applyAdds bucketOps rest (rw.Add bucketOps t 1)).buckets[rw.offset.toNat]? = _
      rw [hres]
      simp only [Option.some.injEq, Bucket.mk.injEq, List.length_cons,
        Bucket.add]
      constructor <;> omega
    · intro p hp
      have hres := ih1.2.2.2.2 p hp
      show (applyAdds bucketOps rest (rw.Add bucketOps t 1)).buckets[p]? =
        rw.buckets[p]?
      rw [hres, h1buckets p, if_neg hp]

/-- C9: for every `N` and `M`, any lock-serialised interleaving of `N * M`
`Add 1` calls within a single interval (each Go `Add` holds the exclusive
mutex for its whole body, so every concurrent execution of the `N`
producers' `M` calls each is some ordering of the `N * M` complete calls)
leaves `offset` and `lastTime` unchanged, touches no other bucket, and
brings the (initially zero) current bucket to count exactly `N * M` and sum
exactly `N * M` — no update is lost and the sum/count pair is not
corrupted. -/
theorem C9_no_lost_updates (N M : Nat) (rw : RollingWindow Bucket)
    (calls : List (Int × Int))
    (hsize : 0 < rw.opts.size) (hint : 0 < rw.opts.interval)
    (hoff : 0 ≤ rw.offset) (hofflt : rw.offset < rw.opts.size)
    (hcalls : ∀ c ∈ calls, rw.lastTime ≤ c.1 ∧
      c.1 < rw.lastTime + rw.opts.interval ∧ c.2 = 1)
    (hlenc : calls.length = N * M)
    (hfresh : rw.buckets[rw.offset.toNat]? = some ⟨0, 0⟩) :
    (applyAdds bucketOps calls rw).offset = rw.offset ∧
    (applyAdds bucketOps calls rw).lastTime = rw.lastTime ∧
    (applyAdds bucketOps calls rw).buckets[rw.offset.toNat]? =
      some ⟨((N * M : Nat) : Int), ((N * M : Nat) : Int)⟩ ∧
    (∀ p : Nat, p ≠ rw.offset.toNat →
      (applyAdds bucketOps calls rw).buckets[p]? = rw.buckets[p]?) := by
  obtain ⟨h1, h2, _, h4, h5⟩ :=
    applyAdds_one_interval calls rw hsize hint hoff hofflt hcalls
  refine ⟨h1, h2, ?_, h5⟩
  have hcur := h4 ⟨0, 0⟩ hfresh
  rw [hcur, hlenc]
  simp

/-- The fresh three-bucket window used by the C9 witness. -/
def rwC9 : RollingWindow Bucket :=
  { buckets := [⟨0, 0⟩, ⟨0, 0⟩, ⟨0, 0⟩], lastTime := 0, offset := 0,
    opts := { size := 3, interval := 10, ignoreCurrent := false } }

/-- Witness for C9: `2 * 3` interleaved `Add 1` calls inside one interval
leave the current bucket with sum and count exactly 6. -/
theorem C9_witness :
    ((0 : Int) < rwC9.opts.size ∧ (0 : Int) < rwC9.opts.interval ∧
      (0 : Int) ≤ rwC9.offset ∧ rwC9.offset < rwC9.opts.size ∧
      rwC9.buckets[rwC9.offset.toNat]? = some ⟨0, 0⟩ ∧
      ([((0 : Int), (1 : Int)), (3, 1), (3, 1), (5, 1), (9, 1), (9, 1)]).length =
        2 * 3) ∧
    (applyAdds bucketOps
        [((0 : Int), (1 : Int)), (3, 1), (3, 1), (5, 1), (9, 1), (9, 1)]
        rwC9).buckets[rwC9.offset.toNat]? =
      some ⟨((2 * 3 : Nat) : Int), ((2 * 3 : Nat) : Int)⟩ :=
  ⟨⟨by decide, by decide, by decide, by decide, by decide, by decide⟩,
    (C9_no_lost_updates 2 3 rwC9
      [((0 : Int), (1 : Int)), (3, 1), (3, 1), (5, 1), (9, 1), (9, 1)]
      (by decide) (by decide) (by decide) (by decide) (by decide) (by decide)
      (by decide)).2.2.1⟩

end KCollection
